import Mathlib

/-!
Verification development for the sesame session-indexing and search engine.

The definitions below are a shallow embedding of the TypeScript sources:

* `src/storage/db.ts` — store schema state, `getSessionMtime`, `deleteSession`,
  `insertSession` (transactional), `listAllSessions`, `search`, `escapeFtsQuery`,
  `openDatabase` / `runMigrations`;
* `src/indexer/index.ts` — `indexSessions`, first-line fast path, chunk building;
* `src/indexer/format-tool-call.ts` — `formatToolCall`, `extractArg`, `buildText`;
* `src/parsers/pi.ts` — the shape of tool-result turns;
* `src/storage/migrations/*` — the migration list.

SQLite runtime behaviour that the code relies on (LIKE matching, BINARY text
collation, transaction rollback, FTS shadow-table triggers, cascade deletes)
is embedded explicitly as executable Lean functions.  JavaScript runtime
behaviour (string truthiness, `trim`, `split` on whitespace, stable `sort`,
`Map` insertion-order semantics) is embedded likewise.
-/

namespace Sesame

/-- Whitespace as matched by JavaScript `trim` and the regexp class backslash-s:
tab, LF, VT, FF, CR, space, NBSP, BOM, the Unicode Zs code points and the
line/paragraph separators. -/
def jsWhitespaceChar (c : Char) : Bool :=
  let n := c.toNat
  (9 ≤ n && n ≤ 13) || n == 32 || n == 160 || n == 5760 ||
  (8192 ≤ n && n ≤ 8202) || n == 8232 || n == 8233 || n == 8239 ||
  n == 8287 || n == 12288 || n == 65279

/-- JavaScript `String.prototype.trim` on an explicit character list. -/
def jsTrimList (l : List Char) : List Char :=
  ((l.dropWhile jsWhitespaceChar).reverse.dropWhile jsWhitespaceChar).reverse

/-- JavaScript `String.prototype.trim`. -/
def jsTrim (s : String) : String :=
  String.mk (jsTrimList s.toList)

/-- JavaScript truthiness of an optional string: `undefined`/`null` and the
empty string are falsy. -/
def strTruthy : Option String → Bool
  | none => false
  | some s => !(s == "")

/-- ASCII lower-casing of one character, as SQLite applies to LIKE operands. -/
def asciiLower (c : Char) : Char :=
  if 65 ≤ c.toNat && c.toNat ≤ 90 then Char.ofNat (c.toNat + 32) else c

/-- Character comparison used by SQLite LIKE: case-insensitive for ASCII. -/
def likeCharEq (p c : Char) : Bool :=
  asciiLower p == asciiLower c

/-- All suffixes of a list, longest first, ending with the empty suffix. -/
def suffixes : List Char → List (List Char)
  | [] => [[]]
  | c :: cs => (c :: cs) :: suffixes cs

/-- SQLite default LIKE matching: the first argument is the pattern, where
the percent character matches any sequence, the underscore matches any single
character, and plain characters compare ASCII-case-insensitively. -/
def likeMatch : List Char → List Char → Bool
  | [], s => s.isEmpty
  | '%' :: ps, s => (suffixes s).any (fun t => likeMatch ps t)
  | '_' :: ps, s =>
    match s with
    | [] => false
    | _ :: s1 => likeMatch ps s1
  | p :: ps, s =>
    match s with
    | [] => false
    | c :: s1 => likeCharEq p c && likeMatch ps s1

/-- SQLite `x LIKE pattern` on strings. -/
def sqlLike (pattern0 text : String) : Bool :=
  likeMatch pattern0.toList text.toList

/-- SQLite BINARY collation comparison of text values; for the UTF-8 encoded
strings stored here this is code-point lexicographic order. -/
def lexLeCh : List Char → List Char → Bool
  | [], _ => true
  | _ :: _, [] => false
  | a :: as, b :: bs =>
    if a < b then true else if b < a then false else lexLeCh as bs

/-- SQLite text comparison used by the `created_at` range filters and the
`modified_at` ordering. -/
def sqlTextLe (a b : String) : Bool :=
  lexLeCh a.toList b.toList

/-- Splits a character list into maximal runs of non-whitespace characters,
mirroring a JavaScript split on the regexp backslash-s-plus followed by a
`filter(Boolean)`. -/
def splitWsAux : List Char → List Char → List (List Char)
  | [], acc => if acc.isEmpty then [] else [acc.reverse]
  | c :: cs, acc =>
    if jsWhitespaceChar c then
      (if acc.isEmpty then [] else [acc.reverse]) ++ splitWsAux cs []
    else splitWsAux cs (c :: acc)

/-- Whitespace-separated tokens of a string. -/
def splitWs (s : String) : List (List Char) :=
  splitWsAux s.toList []

/-- Doubles every double-quote character, as the token escaping does. -/
def doubleQuotes : List Char → List Char
  | [] => []
  | c :: cs => if c == '"' then '"' :: '"' :: doubleQuotes cs else c :: doubleQuotes cs

/-- Escape FTS5 special characters in a query string: split on whitespace,
drop empty tokens, wrap each token in double quotes (doubling embedded
quotes), and join with single spaces. -/
def escapeFtsQuery (query : String) : String :=
  String.intercalate " "
    ((splitWs query).map (fun tok => String.mk ('"' :: doubleQuotes tok ++ ['"'])))

/-- One row of the `sessions` table. -/
structure StoredSession where
  id : String
  source : String
  path : String
  cwd : Option String
  name : Option String
  created_at : Option String
  modified_at : Option String
  message_count : Nat
  file_mtime : Int
deriving DecidableEq

/-- One row of the `chunks` table.  The `is_error` column is tri-state:
0 = success, 1 = error, NULL = not applicable. -/
structure StoredChunk where
  id : Nat
  session_id : String
  kind : String
  role : Option String
  tool_name : Option String
  seq : Nat
  content : String
  is_error : Option Nat
deriving DecidableEq

/-- A search result as returned to callers. -/
structure SearchResult where
  sessionId : String
  source : String
  path : String
  cwd : Option String
  name : Option String
  score : Int
  createdAt : Option String
  modifiedAt : Option String
  matchedSnippet : String
deriving DecidableEq

/-- The status filter values. -/
inductive SearchStatus where
  | success
  | error
deriving DecidableEq

/-- Search options; absent fields model absent properties of the options
object. -/
structure SearchOptions where
  cwd : Option String := none
  after : Option String := none
  before : Option String := none
  limit : Option Nat := none
  toolsOnly : Bool := false
  toolName : Option String := none
  pathFilter : Option String := none
  exclude : List String := []
  status : Option SearchStatus := none
deriving DecidableEq

/-- The committed on-disk state owned by the store: the `sessions` and
`chunks` tables, the FTS5 shadow rows keyed by chunk rowid (maintained by the
insert/delete triggers), and the AUTOINCREMENT counter for chunk ids. -/
structure Store where
  sessions : List StoredSession
  chunks : List StoredChunk
  ftsIndex : List (Nat × String)
  nextChunkId : Nat
deriving DecidableEq

/-- The empty store, as created by a fresh schema. -/
def emptyStore : Store :=
  { sessions := [], chunks := [], ftsIndex := [], nextChunkId := 1 }

/-- Errors surfaced by the storage layer. -/
inductive DbError where
  | constraintViolation
  | ioError
deriving DecidableEq

/-- Point lookup of a stored session's file mtime; absence means the session
is unknown. -/
def getSessionMtime (st : Store) (sessionId : String) : Option Int :=
  match st.sessions.find? (fun s => s.id == sessionId) with
  | some s => some s.file_mtime
  | none => none

/-- DELETE FROM sessions WHERE id = ?: removes the session rows with the id;
the ON DELETE CASCADE foreign key removes the session's chunks, and the
delete trigger removes their FTS shadow rows. -/
def deleteSession (st : Store) (sessionId : String) : Store :=
  { st with
    sessions := st.sessions.filter (fun s => !(s.id == sessionId))
    chunks := st.chunks.filter (fun c => !(c.session_id == sessionId))
    ftsIndex := st.ftsIndex.filter
      (fun p => !(st.chunks.any (fun c => c.session_id == sessionId && c.id == p.1))) }

/-- Executes the prepared INSERT into `sessions`; fails on a primary-key
violation, or per the injected I/O fault. -/
def stmtInsertSession (st : Store) (s : StoredSession) (fault : Bool) :
    Except DbError Store :=
  if fault then .error .ioError
  else if st.sessions.any (fun t => t.id == s.id) then .error .constraintViolation
  else .ok { st with sessions := st.sessions ++ [s] }

/-- Executes the prepared INSERT into `chunks`: the store assigns the next
rowid, and the insert trigger synchronously adds the FTS shadow row.  The
foreign key to `sessions` is enforced; an injected I/O fault also fails. -/
def stmtInsertChunk (st : Store) (c : StoredChunk) (fault : Bool) :
    Except DbError Store :=
  if fault then .error .ioError
  else if st.sessions.any (fun t => t.id == c.session_id) then
    .ok { st with
      chunks := st.chunks ++ [{ c with id := st.nextChunkId }]
      ftsIndex := st.ftsIndex ++ [(st.nextChunkId, c.content)]
      nextChunkId := st.nextChunkId + 1 }
  else .error .constraintViolation

/-- Runs the chunk-insert loop; statement number k of the whole transaction
fails when the fault oracle names it (the session insert is statement 0). -/
def insertChunksLoop (st : Store) (cs : List StoredChunk) (k : Nat)
    (fault : Option Nat) : Except DbError Store :=
  match cs with
  | [] => .ok st
  | c :: rest =>
    match stmtInsertChunk st c (fault == some k) with
    | .error e => .error e
    | .ok st1 => insertChunksLoop st1 rest (k + 1) fault

/-- A database connection: the committed state visible to other readers and
the current working state.  Outside a transaction the two coincide. -/
structure Conn where
  committed : Store
  current : Store
deriving DecidableEq

/-- The atomic session write.  Mirrors the source: BEGIN, insert the session
row, insert every chunk row, COMMIT; on any failure ROLLBACK (restoring the
state at BEGIN, i.e. the committed state) and propagate the error.  The
`fault` oracle injects an I/O failure into one numbered statement. -/
def insertSession (conn : Conn) (s : StoredSession) (chunks : List StoredChunk)
    (fault : Option Nat) : Conn × Option DbError :=
  let startSt := conn.current
  match stmtInsertSession startSt s (fault == some 0) with
  | .error e => ({ conn with current := conn.committed }, some e)
  | .ok st1 =>
    match insertChunksLoop st1 chunks 1 fault with
    | .error e => ({ conn with current := conn.committed }, some e)
    | .ok st2 => ({ committed := st2, current := st2 }, none)

/-- Autocommit wrapper for callers holding a plain store: runs the same
transaction on an idle connection and reports either the newly committed
state or the propagated error (with the store rolled back unchanged). -/
def insertSessionStore (st : Store) (s : StoredSession)
    (chunks : List StoredChunk) (fault : Option Nat) : Except DbError Store :=
  match insertSession { committed := st, current := st } s chunks fault with
  | (conn1, none) => .ok conn1.committed
  | (_, some e) => .error e

/-- Specification of a successful chunk insert: appends the chunk with the
freshly assigned rowid, the FTS shadow row, and bumps the counter. -/
def applyChunk (st : Store) (c : StoredChunk) : Store :=
  { st with
    chunks := st.chunks ++ [{ c with id := st.nextChunkId }]
    ftsIndex := st.ftsIndex ++ [(st.nextChunkId, c.content)]
    nextChunkId := st.nextChunkId + 1 }

/-- Specification of a fully successful session write. -/
def fullInsert (st : Store) (s : StoredSession) (cs : List StoredChunk) : Store :=
  cs.foldl applyChunk { st with sessions := st.sessions ++ [s] }

/-- The effective limit: the destructuring default of 10 applies only when
the option is absent. -/
def effLimit (o : SearchOptions) : Nat :=
  o.limit.getD 10

/-- The cwd clause: the stored cwd must satisfy LIKE against the option value
with a percent wildcard appended; a NULL cwd never matches. -/
def cwdLikeOk (p : String) : Option String → Bool
  | none => false
  | some c => likeMatch (p.toList ++ ['%']) c.toList

/-- The session-level relational filters shared by both query modes: cwd
prefix (LIKE), created_at range (text comparison; NULL never matches), and
the NOT IN exclusion clause (emitted only for a non-empty exclusion list). -/
def sessionFilterOk (o : SearchOptions) (s : StoredSession) : Bool :=
  (if strTruthy o.cwd then cwdLikeOk (o.cwd.getD "") s.cwd else true) &&
  (if strTruthy o.after then
      match s.created_at with
      | some d => sqlTextLe (o.after.getD "") d
      | none => false
    else true) &&
  (if strTruthy o.before then
      match s.created_at with
      | some d => sqlTextLe d (o.before.getD "")
      | none => false
    else true) &&
  (if o.exclude.isEmpty then true else !(o.exclude.contains s.id))

/-- Whether the status clause applies: only with a tool scope. -/
def statusCondApplies (o : SearchOptions) : Bool :=
  o.status.isSome && (o.toolsOnly || strTruthy o.toolName)

/-- The status subquery: the session must contain at least one chunk with the
requested `is_error` value, and with the requested tool name when one is
given. -/
def statusSubqueryOk (st : Store) (o : SearchOptions) (sessionId : String) : Bool :=
  let isErrorValue : Nat := if o.status == some .error then 1 else 0
  st.chunks.any (fun c2 =>
    c2.session_id == sessionId && c2.is_error == some isErrorValue &&
    (if strTruthy o.toolName then c2.tool_name == some (o.toolName.getD "") else true))

/-- The per-chunk clauses of full-text mode: tools-only kind restriction,
tool-name equality (NULL never matches), and the path filter, which also
forces the tool_call kind and matches content by LIKE with percent wildcards
on both sides. -/
def chunkFilterOk (o : SearchOptions) (c : StoredChunk) : Bool :=
  (if o.toolsOnly then c.kind == "tool_call" else true) &&
  (if strTruthy o.toolName then c.tool_name == some (o.toolName.getD "") else true) &&
  (if strTruthy o.pathFilter then
      c.kind == "tool_call" &&
      likeMatch ('%' :: (o.pathFilter.getD "").toList ++ ['%']) c.content.toList
    else true)

/-- Whether listing mode needs the chunk join, written as in the source. -/
def needsChunkJoin (o : SearchOptions) : Bool :=
  o.toolsOnly || strTruthy o.toolName ||
    (o.status.isSome && (o.toolsOnly || strTruthy o.toolName))

/-- The chunk-join condition of listing mode: some chunk of the session must
satisfy the tools-only and tool-name clauses. -/
def listingJoinOk (st : Store) (o : SearchOptions) (s : StoredSession) : Bool :=
  st.chunks.any (fun c =>
    c.session_id == s.id &&
    (if o.toolsOnly then c.kind == "tool_call" else true) &&
    (if strTruthy o.toolName then c.tool_name == some (o.toolName.getD "") else true))

/-- The full listing-mode predicate on a session. -/
def listingPred (st : Store) (o : SearchOptions) (s : StoredSession) : Bool :=
  sessionFilterOk o s &&
  (if needsChunkJoin o then
      listingJoinOk st o s &&
      (if statusCondApplies o then statusSubqueryOk st o s.id else true)
    else true)

/-- The sessions surviving the listing-mode WHERE clauses. -/
def listingSurvivors (st : Store) (o : SearchOptions) : List StoredSession :=
  st.sessions.filter (fun s => listingPred st o s)

/-- ORDER BY modified_at DESC on text values: larger strings first, NULLs
last (SQLite sorts NULLs first ascending, hence last descending). -/
def modDescB (x y : Option String) : Bool :=
  match x, y with
  | some a, some b => sqlTextLe b a
  | some _, none => true
  | none, some _ => false
  | none, none => true

/-- The listing-mode ordering relation on sessions. -/
def sessModDesc (s t : StoredSession) : Prop :=
  modDescB s.modified_at t.modified_at = true

instance : DecidableRel sessModDesc := fun s t => by
  unfold sessModDesc; infer_instance

/-- The fixed snippet placeholder of listing mode. -/
def recentPlaceholder : String := "(recent session)"

/-- Builds one listing-mode result row: neutral zero score, and the snippet
is the session's name unless it is NULL or empty (JavaScript falsiness of
the empty string), in which case the fixed placeholder is used. -/
def mkListingResult (s : StoredSession) : SearchResult :=
  { sessionId := s.id
    source := s.source
    path := s.path
    cwd := s.cwd
    name := s.name
    score := 0
    createdAt := s.created_at
    modifiedAt := s.modified_at
    matchedSnippet :=
      match s.name with
      | some n => if n == "" then recentPlaceholder else n
      | none => recentPlaceholder }

/-- List all sessions without FTS search: filter, order by modification date
descending, truncate to the limit, and map to neutral-score results. -/
def listAllSessions (st : Store) (o : SearchOptions) : List SearchResult :=
  (((listingSurvivors st o).insertionSort sessModDesc).take (effLimit o)).map
    mkListingResult

/-- One row returned by the FTS5 match: rowid, bm25 score (more negative is
better) and highlighted snippet.  Scores are modelled as integers; the search
pipeline only compares them. -/
structure FtsRow where
  rowid : Nat
  score : Int
  snippet : String
deriving DecidableEq

/-- The score map built from the FTS rows (a JavaScript Map, so the last
entry wins for a duplicated rowid). -/
def lookupFts (fts : List FtsRow) (rid : Nat) : Option FtsRow :=
  fts.reverse.find? (fun f => f.rowid == rid)

/-- One row of the main full-text join: a matched chunk id together with its
owning session. -/
structure JoinRow where
  session : StoredSession
  chunkId : Nat
deriving DecidableEq

/-- The session id of a join row. -/
def rowSid (row : JoinRow) : String :=
  row.session.id

/-- The main join of full-text mode: every chunk whose rowid matched,
joined to its owning session, kept when all relational and chunk-level
filters pass. -/
def joinRows (st : Store) (rowids : List Nat) (o : SearchOptions) : List JoinRow :=
  st.chunks.filterMap (fun c =>
    if rowids.contains c.id then
      match st.sessions.find? (fun s => s.id == c.session_id) with
      | some s =>
        if sessionFilterOk o s && chunkFilterOk o c &&
            (if statusCondApplies o then statusSubqueryOk st o s.id else true) then
          some { session := s, chunkId := c.id }
        else none
      | none => none
    else none)

/-- Builds one full-text result row from a join row and its FTS data. -/
def mkFtsResult (row : JoinRow) (f : FtsRow) : SearchResult :=
  { sessionId := row.session.id
    source := row.session.source
    path := row.session.path
    cwd := row.session.cwd
    name := row.session.name
    score := f.score
    createdAt := row.session.created_at
    modifiedAt := row.session.modified_at
    matchedSnippet := f.snippet }

/-- The key of a result in the per-session map. -/
def resKey (r : SearchResult) : String :=
  r.sessionId

/-- One step of the grouping loop over join rows: look up the row's score
data, then keep for each session only the best (most negative) score seen so
far, replacing the map entry in place as a JavaScript Map does. -/
def groupStep (lk : Nat → Option FtsRow) (acc : List SearchResult)
    (row : JoinRow) : List SearchResult :=
  match lk row.chunkId with
  | none => acc
  | some f =>
    match acc.find? (fun x => x.sessionId == rowSid row) with
    | some existing =>
      if f.score < existing.score then
        acc.map (fun x => if x.sessionId == rowSid row then mkFtsResult row f else x)
      else acc
    | none => acc ++ [mkFtsResult row f]

/-- Group the join rows by session, keeping the best chunk per session. -/
def groupRows (lk : Nat → Option FtsRow) (rows : List JoinRow) : List SearchResult :=
  rows.foldl (groupStep lk) []

/-- The final score-ascending sort order (the JavaScript comparator
subtracts scores). -/
def scoreAsc (a b : SearchResult) : Prop :=
  a.score ≤ b.score

instance : DecidableRel scoreAsc := fun a b => by
  unfold scoreAsc; infer_instance

/-- The whole full-text pipeline after the FTS match: join with filters,
group per session, sort by score ascending and truncate to the limit. -/
def ftsPipeline (st : Store) (fts : List FtsRow) (o : SearchOptions)
    (lim : Nat) : List SearchResult :=
  let rows := joinRows st (fts.map FtsRow.rowid) o
  (((groupRows (lookupFts fts) rows).insertionSort scoreAsc).take lim)

/-- Caller-facing search errors. -/
inductive SearchError where
  | emptyQuery
  | starNoFilters
deriving DecidableEq

/-- The listing-mode filter check: truthy cwd, after, before, or a non-zero
effective limit (so it is satisfied except for an explicit zero limit with
no other filter). -/
def starHasFilters (o : SearchOptions) : Bool :=
  strTruthy o.cwd || strTruthy o.after || strTruthy o.before ||
    !(effLimit o == 0)

/-- The search entry point.  The FTS engine is passed as an oracle mapping
the escaped query to its match rows.  An empty or whitespace-only query is
an input error; the star sentinel selects listing mode; otherwise the
full-text pipeline runs, with an empty match set short-circuiting to an
empty result list. -/
def search (st : Store) (ftsEngine : String → List FtsRow) (query : String)
    (o : SearchOptions) : Except SearchError (List SearchResult) :=
  if jsTrim query == "" then .error .emptyQuery
  else if query == "*" then
    if !starHasFilters o then .error .starNoFilters
    else .ok (listAllSessions st o)
  else
    let ftsResults := ftsEngine (escapeFtsQuery query)
    if ftsResults.isEmpty then .ok []
    else .ok (ftsPipeline st ftsResults o (effLimit o))

/-- Schema-level database state for the open/migration logic: which tables
exist, whether the chunks table has the `is_error` column, and the
`schema_migrations` ledger rows. -/
structure DbSchema where
  hasSessionsTable : Bool
  hasChunksTable : Bool
  chunksHasIsError : Bool
  hasMetadataTable : Bool
  hasMigrationsTable : Bool
  ledger : List (Nat × String)

/-- One migration step: a stable numeric id, a description, and a body run
against the database. -/
structure Migration where
  id : Nat
  description : String
  fn : DbSchema → DbSchema

/-- Applying the SCHEMA constant: CREATE IF NOT EXISTS for every table, so a
table that already exists is left as it is (in particular, an existing
chunks table does not gain the `is_error` column here). -/
def applySchema (s : DbSchema) : DbSchema :=
  { s with
    hasSessionsTable := true
    hasChunksTable := true
    chunksHasIsError := if s.hasChunksTable then s.chunksHasIsError else true
    hasMetadataTable := true }

/-- CREATE TABLE IF NOT EXISTS schema_migrations. -/
def ensureMigrationsTable (s : DbSchema) : DbSchema :=
  { s with hasMigrationsTable := true }

/-- Observable migration events: executing a step's body, and recording a
step in the ledger. -/
inductive MigEvent where
  | exec (id : Nat)
  | record (id : Nat)
deriving DecidableEq

/-- The ids already recorded in the ledger. -/
def appliedIds (s : DbSchema) : List Nat :=
  s.ledger.map Prod.fst

/-- The migration loop: steps already recorded are skipped entirely; a fresh
database records each remaining step without executing its body; an existing
database executes each remaining step's body and then records it. -/
def runMigrationsLoop (isFresh : Bool) (applied : List Nat) :
    List Migration → DbSchema → DbSchema × List MigEvent
  | [], s => (s, [])
  | m :: rest, s =>
    if applied.contains m.id then runMigrationsLoop isFresh applied rest s
    else
      let s1 := if isFresh then s else m.fn s
      let s2 := { s1 with ledger := s1.ledger ++ [(m.id, m.description)] }
      let out := runMigrationsLoop isFresh applied rest s2
      (out.1, (if isFresh then [MigEvent.record m.id]
               else [MigEvent.exec m.id, MigEvent.record m.id]) ++ out.2)

/-- Runs pending migrations: ensures the tracking table, reads the applied
set once, then walks the migration list in order. -/
def runMigrations (migs : List Migration) (isFresh : Bool) (s : DbSchema) :
    DbSchema × List MigEvent :=
  let s0 := ensureMigrationsTable s
  runMigrationsLoop isFresh (appliedIds s0) migs s0

/-- Opens the database: detects freshness (no sessions table) before
applying the schema, applies the schema, then runs pending migrations. -/
def openDatabase (migs : List Migration) (s : DbSchema) : DbSchema × List MigEvent :=
  let isFresh := !s.hasSessionsTable
  let s1 := applySchema s
  runMigrations migs isFresh s1

/-- Migration 001: ALTER TABLE chunks ADD COLUMN is_error. -/
def addIsError : Migration :=
  { id := 1
    description := "add is_error column to chunks"
    fn := fun db => { db with chunksHasIsError := true } }

/-- Migration 002: CREATE TABLE IF NOT EXISTS metadata. -/
def addMetadata : Migration :=
  { id := 2
    description := "add metadata table"
    fn := fun db => { db with hasMetadataTable := true } }

/-- All schema migrations in order. -/
def migrations : List Migration :=
  [addIsError, addMetadata]

/-- A tool-call argument value: a string, a null, or a non-string value
carried with its JSON rendering. -/
inductive JsArg where
  | str (s : String)
  | nullv
  | other (rendered : String)
deriving DecidableEq

/-- A structured tool call as produced by the parser. -/
structure ToolCall where
  name : String
  args : List (String × JsArg)
  result : Option String := none
deriving DecidableEq

/-- Renders one argument value the way the formatter does: strings verbatim,
anything else through its JSON encoding. -/
def renderArg : JsArg → String
  | .str s => s
  | .nullv => "null"
  | .other r => r

/-- Extracts the first present, non-null argument among a list of synonym
keys, rendering non-string values as JSON. -/
def extractArg (tc : ToolCall) (keys : List String) : Option String :=
  match keys with
  | [] => none
  | k :: rest =>
    match tc.args.lookup k with
    | some v => if v == JsArg.nullv then extractArg tc rest else some (renderArg v)
    | none => extractArg tc rest

/-- Joins the truthy parts with newlines (JavaScript filter(Boolean) drops
both nulls and empty strings). -/
def buildText (parts : List (Option String)) : String :=
  String.intercalate "\n" ((parts.filterMap id).filter (fun s => !(s == "")))

/-- An optional labelled single-line part: null when the value is absent or
falsy. -/
def linePart (label0 : String) (v : Option String) : Option String :=
  match v with
  | some s => if s == "" then none else some (label0 ++ s)
  | none => none

/-- An optional labelled block part with the value on following lines. -/
def blockPart (label0 : String) (v : Option String) : Option String :=
  match v with
  | some s => if s == "" then none else some (label0 ++ "\n" ++ s)
  | none => none

/-- ASCII lower-casing of a string, matching toLowerCase on the ASCII tool
names the formatter branches on. -/
def lowerAscii (s : String) : String :=
  String.mk (s.toList.map asciiLower)

/-- Renders the generic-arguments block: one key-colon-value line per
argument. -/
def genericArgsText (args : List (String × JsArg)) : String :=
  String.intercalate "\n" (args.map (fun kv => kv.1 ++ ": " ++ renderArg kv.2))

/-- Format a tool call into structured searchable text, by tool family. -/
def formatToolCall (tc : ToolCall) : String :=
  let name := lowerAscii tc.name
  if name == "write" || name == "create" || name == "write_file" ||
      name == "create_file" then
    let path := extractArg tc ["path", "file_path", "filePath"]
    let content := extractArg tc ["content", "file_content", "fileContent"]
    buildText [some ("tool: " ++ tc.name), linePart "path: " path,
      blockPart "content:" content, blockPart "result:" tc.result]
  else if name == "edit" || name == "edit_file" then
    let path := extractArg tc ["path", "file_path", "filePath"]
    let oldText := extractArg tc ["old", "oldText", "old_text", "old_string", "search"]
    let newText := extractArg tc ["new", "newText", "new_text", "new_string", "replace"]
    buildText [some ("tool: " ++ tc.name), linePart "path: " path,
      blockPart "old:" oldText, blockPart "new:" newText,
      blockPart "result:" tc.result]
  else if name == "bash" || name == "shell" || name == "run_command" then
    let command := extractArg tc ["command", "cmd", "script"]
    buildText [some ("tool: " ++ tc.name), linePart "command: " command,
      blockPart "output:" tc.result]
  else if name == "read" || name == "read_file" then
    let path := extractArg tc ["path", "file_path", "filePath"]
    buildText [some ("tool: " ++ tc.name), linePart "path: " path,
      blockPart "content:" tc.result]
  else
    let argsText := genericArgsText tc.args
    buildText [some ("tool: " ++ tc.name),
      (if argsText == "" then none else some argsText),
      blockPart "result:" tc.result]

/-- One normalized turn of a parsed session. -/
structure Turn where
  role : String
  textContent : String
  toolCalls : List ToolCall
  toolName : Option String := none
  isError : Option Bool := none
deriving DecidableEq

/-- A parsed session as the adapter returns it. -/
structure ParsedSession where
  id : String
  source : String
  cwd : Option String := none
  name : Option String := none
  createdAt : String
  modifiedAt : String
  turns : List Turn
deriving DecidableEq

/-- The turn the Pi parser builds for a toolResult message: role system, the
joined text blocks, no tool calls, and the tool name and error flag recorded
on the turn (the flag defaulting to false when absent in the log line). -/
def piToolResultTurn (toolName : String) (isError : Option Bool)
    (textContent : String) : Turn :=
  { role := "system"
    textContent := textContent
    toolCalls := []
    toolName := some toolName
    isError := some (isError.getD false) }

/-- The message chunk the indexer pushes for a turn: the source object
literal sets role and content from the turn and leaves tool_name null; it
sets no is_error field at all, so the stored status is NULL
(not applicable) for every message chunk. -/
def mkMessageChunk (sessionId : String) (t : Turn) (seq : Nat) : StoredChunk :=
  { id := 0
    session_id := sessionId
    kind := "message"
    role := some t.role
    tool_name := none
    seq := seq
    content := t.textContent
    is_error := none }

/-- The tool_call chunk the indexer pushes for one tool call; the source
literal likewise sets no is_error field. -/
def mkToolCallChunk (sessionId : String) (tc : ToolCall) (content : String)
    (seq : Nat) : StoredChunk :=
  { id := 0
    session_id := sessionId
    kind := "tool_call"
    role := none
    tool_name := some tc.name
    seq := seq
    content := content
    is_error := none }

/-- The tool-call chunks of one turn, threading the sequence counter; chunks
whose rendered content trims to empty are dropped. -/
def buildToolCallChunks (sessionId : String) (tcs : List ToolCall) (seq : Nat) :
    List StoredChunk × Nat :=
  match tcs with
  | [] => ([], seq)
  | tc :: rest =>
    let content := formatToolCall tc
    if !(jsTrim content == "") then
      let out := buildToolCallChunks sessionId rest (seq + 1)
      (mkToolCallChunk sessionId tc content seq :: out.1, out.2)
    else buildToolCallChunks sessionId rest seq

/-- Chunk construction over the turns: one message chunk per turn with
non-empty trimmed text, then one tool_call chunk per non-empty tool call. -/
def buildChunksAux (sessionId : String) : List Turn → Nat → List StoredChunk
  | [], _ => []
  | t :: ts, seq =>
    let msg : List StoredChunk × Nat :=
      if !(jsTrim t.textContent == "") then
        ([mkMessageChunk sessionId t seq], seq + 1)
      else ([], seq)
    let tcOut := buildToolCallChunks sessionId t.toolCalls msg.2
    msg.1 ++ tcOut.1 ++ buildChunksAux sessionId ts tcOut.2

/-- The chunk list the indexer builds for a parsed session. -/
def buildChunks (sessionId : String) (turns : List Turn) : List StoredChunk :=
  buildChunksAux sessionId turns 0

/-- The stored session row the indexer builds. -/
def mkStoredSession (ps : ParsedSession) (filePath : String)
    (fileMtime : Int) : StoredSession :=
  { id := ps.id
    source := ps.source
    path := filePath
    cwd := ps.cwd
    name := ps.name
    created_at := some ps.createdAt
    modified_at := some ps.modifiedAt
    message_count := ps.turns.length
    file_mtime := fileMtime }

/-- One directory entry of the top-level scan. -/
structure DirEntry where
  name : String
  isDir : Bool
deriving DecidableEq

/-- The file-system oracle seen by the indexer.  A `none` root listing means
the top-level readdir throws; a `none` sub-listing means that subdirectory's
readdir throws (skipped silently); a `none` mtime means statSync throws for
that file; firstLine is the internally caught first-line read; headerId is
JSON-parsing the first line and projecting its id field (an error means the
parse throws). -/
structure FileSys where
  rootEntries : Option (List DirEntry)
  subEntries : String → Option (List String)
  mtimeMs : String → Option Int
  firstLine : String → Option String
  headerId : String → Except Unit (Option String)

/-- The adapter oracle: detection never throws; parsing may. -/
structure ParserModel where
  canParse : String → Bool
  parse : String → Except Unit ParsedSession

/-- Node path join for the two-level scan. -/
def pathJoin (dir name : String) : String :=
  dir ++ "/" ++ name

/-- Candidate collection: files at the top level plus the files of each
readable subdirectory; unreadable subdirectories contribute nothing. -/
def collectFiles (fs : FileSys) (dir : String) (entries : List DirEntry) :
    List String :=
  entries.flatMap (fun e =>
    if e.isDir then
      match fs.subEntries (pathJoin dir e.name) with
      | some children => children.map (fun c => pathJoin (pathJoin dir e.name) c)
      | none => []
    else [pathJoin dir e.name])

/-- Outcome of processing one candidate file. -/
inductive Outcome where
  | skipped
  | added
  | updated
  | failed
deriving DecidableEq

/-- The result counters of one indexing run. -/
structure IndexResult where
  added : Nat
  updated : Nat
  skipped : Nat
  errors : Nat
deriving DecidableEq

/-- The all-zero result. -/
def zeroResult : IndexResult :=
  { added := 0, updated := 0, skipped := 0, errors := 0 }

/-- The fast-path decision from the first line: skip when the recovered
session id is already stored with an identical mtime; fail when JSON-parsing
the first line throws (the outer per-file catch counts it); otherwise
proceed to the full parse.  A null or empty first line and a missing or
empty id all fall through to the full parse. -/
inductive FastDecision where
  | skip
  | fail
  | proceed
deriving DecidableEq

/-- Evaluates the first-line fast path of the indexer. -/
def fastDecision (fs : FileSys) (st : Store) (path : String)
    (fileMtime : Int) : FastDecision :=
  match fs.firstLine path with
  | none => .proceed
  | some line =>
    if line == "" then .proceed
    else
      match fs.headerId line with
      | .error _ => .fail
      | .ok none => .proceed
      | .ok (some sid) =>
        if sid == "" then .proceed
        else
          match getSessionMtime st sid with
          | some m => if m == fileMtime then .skip else .proceed
          | none => .proceed

/-- The full parse-and-replace path: parse, re-check for an existing session
with the parsed id, delete it if present, build the row and chunks, insert
atomically, and classify added versus updated by whether a prior session
existed.  A parse or write failure yields a failed outcome (caught by the
per-file handler); note a write failure happens after the delete. -/
def processFull (pm : ParserModel) (faults : String → Option Nat)
    (st : Store) (path : String) (fileMtime : Int) : Outcome × Store :=
  match pm.parse path with
  | .error _ => (.failed, st)
  | .ok ps =>
    let storedMtime := getSessionMtime st ps.id
    let st1 := if storedMtime.isSome then deleteSession st ps.id else st
    let storedSession := mkStoredSession ps path fileMtime
    let chunks := buildChunks ps.id ps.turns
    match insertSessionStore st1 storedSession chunks (faults path) with
    | .error _ => (.failed, st1)
    | .ok st2 => (if storedMtime.isSome then .updated else .added, st2)

/-- Processing of one candidate file (inside the per-file try). -/
def processFile (fs : FileSys) (pm : ParserModel) (faults : String → Option Nat)
    (st : Store) (path : String) : Outcome × Store :=
  match fs.mtimeMs path with
  | none => (.failed, st)
  | some fileMtime =>
    match fastDecision fs st path fileMtime with
    | .skip => (.skipped, st)
    | .fail => (.failed, st)
    | .proceed => processFull pm faults st path fileMtime

/-- One iteration of the indexing loop: non-matching files are silently
passed over; otherwise the file's outcome bumps the matching counter. -/
def indexStep (fs : FileSys) (pm : ParserModel) (faults : String → Option Nat)
    (acc : IndexResult × Store) (path : String) : IndexResult × Store :=
  if pm.canParse path then
    match processFile fs pm faults acc.2 path with
    | (.skipped, st1) => ({ acc.1 with skipped := acc.1.skipped + 1 }, st1)
    | (.added, st1) => ({ acc.1 with added := acc.1.added + 1 }, st1)
    | (.updated, st1) => ({ acc.1 with updated := acc.1.updated + 1 }, st1)
    | (.failed, st1) => ({ acc.1 with errors := acc.1.errors + 1 }, st1)
  else acc

/-- Bring the store up to date with one source directory: a top-level scan
failure aborts with the all-zero result; otherwise every candidate file is
processed in enumeration order. -/
def indexSessions (fs : FileSys) (pm : ParserModel)
    (faults : String → Option Nat) (dir : String) (st : Store) :
    IndexResult × Store :=
  match fs.rootEntries with
  | none => (zeroResult, st)
  | some entries =>
    (collectFiles fs dir entries).foldl (indexStep fs pm faults) (zeroResult, st)

end Sesame

deriving instance DecidableEq for Except

namespace Sesame

theorem lexLeCh_total : ∀ a b : List Char, lexLeCh a b = true ∨ lexLeCh b a = true := by
  intro a
  induction a with
  | nil => intro b; left; rfl
  | cons x xs ih =>
    intro b
    cases b with
    | nil => right; rfl
    | cons y ys =>
      rcases lt_trichotomy x y with h | h | h
      · left; simp [lexLeCh, h]
      · subst h
        rcases ih ys with h2 | h2
        · left; simp [lexLeCh, lt_irrefl, h2]
        · right; simp [lexLeCh, lt_irrefl, h2]
      · right; simp [lexLeCh, h]

theorem lexLeCh_trans : ∀ a b c : List Char,
    lexLeCh a b = true → lexLeCh b c = true → lexLeCh a c = true := by
  intro a
  induction a with
  | nil => intro b c _ _; rfl
  | cons x xs ih =>
    intro b c hab hbc
    cases b with
    | nil => simp [lexLeCh] at hab
    | cons y ys =>
      cases c with
      | nil => simp [lexLeCh] at hbc
      | cons z zs =>
        simp only [lexLeCh] at hab hbc ⊢
        rcases lt_trichotomy x y with hxy | hxy | hxy
        · rcases lt_trichotomy y z with hyz | hyz | hyz
          · simp [lt_trans hxy hyz]
          · subst hyz; simp [hxy]
          · simp [hyz, lt_asymm hyz] at hbc
        · subst hxy
          rw [if_neg (lt_irrefl x), if_neg (lt_irrefl x)] at hab
          rcases lt_trichotomy x z with hxz | hxz | hxz
          · simp [hxz]
          · subst hxz
            rw [if_neg (lt_irrefl x), if_neg (lt_irrefl x)] at hbc
            rw [if_neg (lt_irrefl x), if_neg (lt_irrefl x)]
            exact ih ys zs hab hbc
          · simp [hxz, lt_asymm hxz] at hbc
        · simp [hxy, lt_asymm hxy] at hab

theorem modDescB_total : ∀ x y : Option String,
    modDescB x y = true ∨ modDescB y x = true := by
  intro x y
  cases x with
  | none =>
    cases y with
    | none => left; rfl
    | some b => right; rfl
  | some a =>
    cases y with
    | none => left; rfl
    | some b => exact (lexLeCh_total b.toList a.toList).imp id id

theorem modDescB_trans : ∀ x y z : Option String,
    modDescB x y = true → modDescB y z = true → modDescB x z = true := by
  intro x y z hxy hyz
  cases x with
  | none =>
    cases y with
    | none =>
      cases z with
      | none => rfl
      | some c => exact hyz
    | some b => exact absurd hxy (by simp [modDescB])
  | some a =>
    cases z with
    | none => rfl
    | some c =>
      cases y with
      | none => exact absurd hyz (by simp [modDescB])
      | some b => exact lexLeCh_trans c.toList b.toList a.toList hyz hxy

instance : IsTotal StoredSession sessModDesc :=
  ⟨fun s t => modDescB_total s.modified_at t.modified_at⟩

instance : IsTrans StoredSession sessModDesc :=
  ⟨fun s t u => modDescB_trans s.modified_at t.modified_at u.modified_at⟩

instance : IsTotal SearchResult scoreAsc :=
  ⟨fun a b => Int.le_total a.score b.score⟩

instance : IsTrans SearchResult scoreAsc :=
  ⟨fun _ _ _ hab hbc => le_trans hab hbc⟩

/-- C8.  A query whose JavaScript-trimmed text is empty is rejected as an
input error before any query runs, while a non-empty, non-sentinel query for
which the full-text match returns no rows yields an empty result list, not
an error. -/
theorem C8_empty_query_vs_no_rows (st : Store) (eng : String → List FtsRow)
    (o : SearchOptions) (q : String) :
    (jsTrim q = "" → search st eng q o = .error .emptyQuery) ∧
    (jsTrim q ≠ "" → q ≠ "*" → eng (escapeFtsQuery q) = [] →
      search st eng q o = .ok []) := by
  constructor
  · intro h
    simp [search, h]
  · intro h1 h2 h3
    simp [search, h1, h2, h3]

theorem C8_witness :
    search emptyStore (fun _ => []) "   " {} = .error .emptyQuery ∧
    search emptyStore (fun _ => []) "zzz" {} = .ok [] :=
  ⟨(C8_empty_query_vs_no_rows emptyStore (fun _ => []) {} "   ").1 (by decide),
   (C8_empty_query_vs_no_rows emptyStore (fun _ => []) {} "zzz").2 (by decide)
     (by decide) rfl⟩

theorem appliedIds_open (s : DbSchema) :
    appliedIds (ensureMigrationsTable (applySchema s)) = appliedIds s := rfl

theorem runMigrationsLoop_events (isFresh : Bool) (applied : List Nat) :
    ∀ (migs : List Migration) (s : DbSchema),
      (runMigrationsLoop isFresh applied migs s).2 =
        (migs.filter (fun m => !applied.contains m.id)).flatMap
          (fun m =>
            if isFresh then [MigEvent.record m.id]
            else [MigEvent.exec m.id, MigEvent.record m.id]) := by
  intro migs
  induction migs with
  | nil => intro s; rfl
  | cons m rest ih =>
    intro s
    cases h : applied.contains m.id with
    | true =>
      simp only [runMigrationsLoop, List.filter_cons, h, if_true,
        Bool.not_true, Bool.false_eq_true, if_false]
      exact ih s
    | false =>
      simp only [runMigrationsLoop, List.filter_cons, h, Bool.false_eq_true,
        if_false, Bool.not_false, if_true, List.flatMap_cons]
      rw [ih]

/-- C7.  Opening the store never re-executes (nor re-records) upgrade steps
already present in the schema ledger; the full event trace records each
pending step without executing it when the store is brand new (no sessions
table before the schema is applied), and executes then records each pending
step, in migration-list order, when the store pre-existed. -/
theorem C7_migrations_replay_or_skip (migs : List Migration) (s : DbSchema) :
    (openDatabase migs s).2 =
      (migs.filter (fun m => !(appliedIds s).contains m.id)).flatMap
        (fun m =>
          if s.hasSessionsTable then [MigEvent.exec m.id, MigEvent.record m.id]
          else [MigEvent.record m.id]) ∧
    (∀ i, i ∈ appliedIds s →
      MigEvent.exec i ∉ (openDatabase migs s).2 ∧
      MigEvent.record i ∉ (openDatabase migs s).2) := by
  have hmain : (openDatabase migs s).2 =
      (migs.filter (fun m => !(appliedIds s).contains m.id)).flatMap
        (fun m =>
          if s.hasSessionsTable then [MigEvent.exec m.id, MigEvent.record m.id]
          else [MigEvent.record m.id]) := by
    show (runMigrationsLoop (!s.hasSessionsTable)
        (appliedIds (ensureMigrationsTable (applySchema s))) migs
        (ensureMigrationsTable (applySchema s))).2 = _
    rw [appliedIds_open, runMigrationsLoop_events]
    cases hs : s.hasSessionsTable <;> rfl
  refine ⟨hmain, ?_⟩
  intro i hi
  have key : ∀ ev, ev ∈ (openDatabase migs s).2 →
      ∃ m, m ∈ migs ∧ m.id ∉ appliedIds s ∧
        (ev = MigEvent.exec m.id ∨ ev = MigEvent.record m.id) := by
    intro ev hev
    rw [hmain] at hev
    rcases List.mem_flatMap.mp hev with ⟨m, hm, hin⟩
    rcases List.mem_filter.mp hm with ⟨hmem, hnot⟩
    refine ⟨m, hmem, by simpa using hnot, ?_⟩
    cases hcase : s.hasSessionsTable
    · rw [hcase] at hin
      simp only [Bool.false_eq_true, if_false, List.mem_singleton] at hin
      exact Or.inr hin
    · rw [hcase] at hin
      simp only [if_true, List.mem_cons, List.mem_singleton,
        List.not_mem_nil, or_false] at hin
      exact hin
  constructor
  · intro hmem
    rcases key _ hmem with ⟨m, _, hnotm, hor⟩
    rcases hor with h | h
    · have him : i = m.id := by simpa using h
      exact hnotm (him ▸ hi)
    · simp at h
  · intro hmem
    rcases key _ hmem with ⟨m, _, hnotm, hor⟩
    rcases hor with h | h
    · simp at h
    · have him : i = m.id := by simpa using h
      exact hnotm (him ▸ hi)

/-- A pre-existing schema with migration 1 already recorded. -/
def preSchema : DbSchema :=
  { hasSessionsTable := true
    hasChunksTable := true
    chunksHasIsError := true
    hasMetadataTable := false
    hasMigrationsTable := true
    ledger := [(1, "add is_error column to chunks")] }

theorem C7_witness :
    (openDatabase migrations preSchema).2 =
      [MigEvent.exec 2, MigEvent.record 2] ∧
    MigEvent.exec 1 ∉ (openDatabase migrations preSchema).2 ∧
    MigEvent.record 1 ∉ (openDatabase migrations preSchema).2 := by
  refine ⟨?_, ?_, ?_⟩
  · rw [(C7_migrations_replay_or_skip migrations preSchema).1]
    rfl
  · exact ((C7_migrations_replay_or_skip migrations preSchema).2 1 (by decide)).1
  · exact ((C7_migrations_replay_or_skip migrations preSchema).2 1 (by decide)).2

/-- C1 evaluates the indexer's chunk construction on a parsed tool-result
turn: the Pi parser records the tool name and the error flag on the turn,
but the emitted message chunk carries tool_name NULL and is_error NULL
(status not applicable) instead of the turn's flag and tool name. -/
theorem C1_toolResult_message_chunk :
    buildChunks "s1" [piToolResultTurn "Bash" (some true) "command failed"] =
      [{ id := 0, session_id := "s1", kind := "message", role := some "system",
         tool_name := none, seq := 0, content := "command failed",
         is_error := none }] ∧
    (piToolResultTurn "Bash" (some true) "command failed").toolName = some "Bash" ∧
    (piToolResultTurn "Bash" (some true) "command failed").isError = some true := by
  decide

/-- The rowids AUTOINCREMENT assigns to a batch of chunk inserts. -/
def assignIds (n : Nat) : List StoredChunk → List StoredChunk
  | [] => []
  | c :: cs => { c with id := n } :: assignIds (n + 1) cs

theorem stmtInsertSession_ok {st : Store} {s : StoredSession} {b : Bool}
    {st1 : Store} (h : stmtInsertSession st s b = .ok st1) :
    st1 = { st with sessions := st.sessions ++ [s] } := by
  unfold stmtInsertSession at h
  split_ifs at h
  exact (Except.ok.inj h).symm

theorem stmtInsertChunk_ok {st : Store} {c : StoredChunk} {b : Bool}
    {st1 : Store} (h : stmtInsertChunk st c b = .ok st1) :
    st1 = applyChunk st c := by
  unfold stmtInsertChunk at h
  split_ifs at h
  exact (Except.ok.inj h).symm

theorem insertChunksLoop_ok :
    ∀ (cs : List StoredChunk) (st : Store) (k : Nat) (fault : Option Nat)
      (st2 : Store),
      insertChunksLoop st cs k fault = .ok st2 → st2 = cs.foldl applyChunk st := by
  intro cs
  induction cs with
  | nil =>
    intro st k fault st2 h
    simp only [insertChunksLoop, Except.ok.injEq] at h
    exact h.symm
  | cons c rest ih =>
    intro st k fault st2 h
    simp only [insertChunksLoop] at h
    cases hstmt : stmtInsertChunk st c (fault == some k) with
    | error e => rw [hstmt] at h; simp at h
    | ok st1 =>
      rw [hstmt] at h
      have h2 : insertChunksLoop st1 rest (k + 1) fault = .ok st2 := h
      have := ih st1 (k + 1) fault st2 h2
      rw [this, stmtInsertChunk_ok hstmt]
      rfl

theorem foldl_applyChunk_sessions :
    ∀ (cs : List StoredChunk) (st : Store),
      (cs.foldl applyChunk st).sessions = st.sessions := by
  intro cs
  induction cs with
  | nil => intro st; rfl
  | cons c rest ih => intro st; simpa [List.foldl_cons] using ih (applyChunk st c)

theorem foldl_applyChunk_chunks :
    ∀ (cs : List StoredChunk) (st : Store),
      (cs.foldl applyChunk st).chunks =
        st.chunks ++ assignIds st.nextChunkId cs := by
  intro cs
  induction cs with
  | nil => intro st; simp [assignIds]
  | cons c rest ih =>
    intro st
    simp only [List.foldl_cons]
    rw [ih (applyChunk st c)]
    show (applyChunk st c).chunks ++ assignIds (applyChunk st c).nextChunkId rest =
      st.chunks ++ assignIds st.nextChunkId (c :: rest)
    simp only [applyChunk, assignIds]
    simp [List.append_assoc]

theorem insertChunksLoop_none_ok :
    ∀ (cs : List StoredChunk) (st : Store) (k : Nat),
      (∀ c ∈ cs, st.sessions.any (fun t => t.id == c.session_id) = true) →
      insertChunksLoop st cs k none = .ok (cs.foldl applyChunk st) := by
  intro cs
  induction cs with
  | nil => intro st k _; rfl
  | cons c rest ih =>
    intro st k hall
    have hc : st.sessions.any (fun t => t.id == c.session_id) = true :=
      hall c (List.mem_cons_self c rest)
    have hrest : ∀ c1 ∈ rest,
        (applyChunk st c).sessions.any (fun t => t.id == c1.session_id) = true := by
      intro c1 hc1
      exact hall c1 (List.mem_cons_of_mem c hc1)
    simp only [insertChunksLoop, stmtInsertChunk]
    have hb : ((none : Option Nat) == some k) = false := rfl
    rw [hb]
    simp only [Bool.false_eq_true, if_false, hc, if_true]
    have := ih (applyChunk st c) (k + 1) hrest
    simp only [List.foldl_cons]
    exact this

/-- C3.  The session write is atomic: when no statement fails, the committed
state gains exactly the session row and all its chunk rows (with their
assigned rowids) in one step; when any statement fails, the transaction
rolls back, leaving the connection exactly as before, and the error is
propagated to the caller. -/
theorem C3_insertSession_atomic (conn : Conn) (s : StoredSession)
    (chunks : List StoredChunk) (fault : Option Nat)
    (hidle : conn.current = conn.committed) :
    (∀ e, (insertSession conn s chunks fault).2 = some e →
        (insertSession conn s chunks fault).1 = conn) ∧
    ((insertSession conn s chunks fault).2 = none →
        (insertSession conn s chunks fault).1.committed =
          fullInsert conn.committed s chunks ∧
        (insertSession conn s chunks fault).1.current =
          fullInsert conn.committed s chunks ∧
        (insertSession conn s chunks fault).1.committed.sessions =
          conn.committed.sessions ++ [s] ∧
        (insertSession conn s chunks fault).1.committed.chunks =
          conn.committed.chunks ++
            assignIds conn.committed.nextChunkId chunks) := by
  obtain ⟨com, cur⟩ := conn
  simp only at hidle
  subst hidle
  cases hstmt : stmtInsertSession cur s (fault == some 0) with
  | error e0 =>
    have heq : insertSession { committed := cur, current := cur } s chunks fault =
        ({ committed := cur, current := cur }, some e0) := by
      simp only [insertSession, hstmt]
    rw [heq]
    exact ⟨fun e _ => rfl, fun hnone => by simp at hnone⟩
  | ok st1 =>
    cases hloop : insertChunksLoop st1 chunks 1 fault with
    | error e1 =>
      have heq : insertSession { committed := cur, current := cur } s chunks fault =
          ({ committed := cur, current := cur }, some e1) := by
        simp only [insertSession, hstmt, hloop]
      rw [heq]
      exact ⟨fun e _ => rfl, fun hnone => by simp at hnone⟩
    | ok st2 =>
      have heq : insertSession { committed := cur, current := cur } s chunks fault =
          ({ committed := st2, current := st2 }, none) := by
        simp only [insertSession, hstmt, hloop]
      rw [heq]
      have hst1 : st1 = { cur with sessions := cur.sessions ++ [s] } :=
        stmtInsertSession_ok hstmt
      have hst2 : st2 = chunks.foldl applyChunk st1 :=
        insertChunksLoop_ok chunks st1 1 fault st2 hloop
      have hfull : st2 = fullInsert cur s chunks := by
        rw [hst2, hst1]; rfl
      refine ⟨fun e he => by simp at he, fun _ => ⟨hfull, hfull, ?_, ?_⟩⟩
      · show st2.sessions = cur.sessions ++ [s]
        rw [hfull]
        simp only [fullInsert, foldl_applyChunk_sessions]
      · show st2.chunks = cur.chunks ++ assignIds cur.nextChunkId chunks
        rw [hfull]
        simp only [fullInsert, foldl_applyChunk_chunks]

/-- A concrete session and chunk for the witnesses. -/
def sW : StoredSession :=
  { id := "w1", source := "pi", path := "/p/w1.jsonl", cwd := some "/proj"
    name := some "W", created_at := some "2026-01-01"
    modified_at := some "2026-01-02", message_count := 1, file_mtime := 7 }

/-- A concrete chunk for the witnesses. -/
def cW : StoredChunk :=
  { id := 0, session_id := "w1", kind := "message", role := some "user"
    tool_name := none, seq := 0, content := "hello world", is_error := none }

theorem C3_witness :
    (insertSession { committed := emptyStore, current := emptyStore } sW [cW]
        none).2 = none ∧
    (insertSession { committed := emptyStore, current := emptyStore } sW [cW]
        none).1.committed.sessions = [sW] ∧
    (insertSession { committed := emptyStore, current := emptyStore } sW [cW]
        none).1.committed.chunks = [{ cW with id := 1 }] := by
  have h := (C3_insertSession_atomic
      { committed := emptyStore, current := emptyStore } sW [cW] none rfl).2
      (by decide)
  refine ⟨by decide, ?_, ?_⟩
  · rw [h.2.2.1]; rfl
  · rw [h.2.2.2]; rfl

theorem insertSessionStore_ok {st : Store} {s : StoredSession}
    {cs : List StoredChunk}
    (hnodup : st.sessions.any (fun t => t.id == s.id) = false)
    (hsid : ∀ c ∈ cs, c.session_id = s.id) :
    insertSessionStore st s cs none = .ok (fullInsert st s cs) := by
  have hb : ((none : Option Nat) == some 0) = false := rfl
  have hstmt : stmtInsertSession st s ((none : Option Nat) == some 0) =
      .ok { st with sessions := st.sessions ++ [s] } := by
    simp only [stmtInsertSession, hb, Bool.false_eq_true, if_false, hnodup]
  have hall : ∀ c ∈ cs,
      ({ st with sessions := st.sessions ++ [s] } : Store).sessions.any
        (fun t => t.id == c.session_id) = true := by
    intro c hc
    apply List.any_eq_true.mpr
    exact ⟨s, List.mem_append_right _ (List.mem_singleton_self s),
      by rw [hsid c hc]; exact beq_self_eq_true s.id⟩
  have hloop := insertChunksLoop_none_ok cs
    { st with sessions := st.sessions ++ [s] } 1 hall
  simp only [insertSessionStore, insertSession, hstmt, hloop]
  rfl

theorem getSessionMtime_none_any {st : Store} {sid : String}
    (h : getSessionMtime st sid = none) :
    st.sessions.any (fun t => t.id == sid) = false := by
  unfold getSessionMtime at h
  cases hf : st.sessions.find? (fun s => s.id == sid) with
  | some s => rw [hf] at h; simp at h
  | none =>
    rw [List.find?_eq_none] at hf
    rw [List.any_eq_false]
    intro x hx
    exact hf x hx

theorem deleteSession_any_id (st : Store) (sid : String) :
    (deleteSession st sid).sessions.any (fun t => t.id == sid) = false := by
  simp only [deleteSession]
  rw [List.any_eq_false]
  intro x hx
  rcases List.mem_filter.mp hx with ⟨_, hcond⟩
  simp only [Bool.not_eq_true'] at hcond
  simp [hcond]

theorem buildToolCallChunks_session_id (sid : String) :
    ∀ (tcs : List ToolCall) (seq : Nat) (c : StoredChunk),
      c ∈ (buildToolCallChunks sid tcs seq).1 → c.session_id = sid := by
  intro tcs
  induction tcs with
  | nil => intro seq c hc; simp [buildToolCallChunks] at hc
  | cons tc rest ih =>
    intro seq c hc
    simp only [buildToolCallChunks] at hc
    split at hc
    · rcases List.mem_cons.mp hc with h | h
      · rw [h]; rfl
      · exact ih (seq + 1) c h
    · exact ih seq c hc

theorem buildChunksAux_session_id (sid : String) :
    ∀ (turns : List Turn) (seq : Nat) (c : StoredChunk),
      c ∈ buildChunksAux sid turns seq → c.session_id = sid := by
  intro turns
  induction turns with
  | nil => intro seq c hc; simp [buildChunksAux] at hc
  | cons t ts ih =>
    intro seq c hc
    simp only [buildChunksAux, List.mem_append] at hc
    rcases hc with (hc | hc) | hc
    · split at hc
      · rcases List.mem_singleton.mp hc with h
        rw [h]; rfl
      · simp at hc
    · exact buildToolCallChunks_session_id sid t.toolCalls _ c hc
    · exact ih _ c hc

theorem buildChunks_session_id (sid : String) (turns : List Turn) :
    ∀ c ∈ buildChunks sid turns, c.session_id = sid := by
  intro c hc
  exact buildChunksAux_session_id sid turns 0 c hc

/-- C2.  The incremental decision: a candidate file whose first line yields a
session id that the store already holds with an identical stored mtime is
counted as skipped and fully bypassed (no parse, no write, store unchanged);
every other parseable file is fully parsed, any existing session with the
parsed id is deleted before the atomic insert of the freshly built session
and chunks, and the file is counted as added when no prior session with that
id existed and as updated when one did. -/
theorem C2_incremental_decision (fs : FileSys) (pm : ParserModel)
    (faults : String → Option Nat) (st : Store) (path : String) (mt : Int)
    (r : IndexResult) (hcan : pm.canParse path = true)
    (hmt : fs.mtimeMs path = some mt) :
    (∀ line sid,
      fs.firstLine path = some line → line ≠ "" →
      fs.headerId line = .ok (some sid) → sid ≠ "" →
      getSessionMtime st sid = some mt →
      processFile fs pm faults st path = (.skipped, st) ∧
      indexStep fs pm faults (r, st) path =
        ({ r with skipped := r.skipped + 1 }, st)) ∧
    (∀ ps, fastDecision fs st path mt = .proceed →
      pm.parse path = .ok ps →
      faults path = none →
      processFile fs pm faults st path =
        ((if (getSessionMtime st ps.id).isSome then Outcome.updated
          else Outcome.added),
         fullInsert
           (if (getSessionMtime st ps.id).isSome then deleteSession st ps.id
            else st)
           (mkStoredSession ps path mt) (buildChunks ps.id ps.turns)) ∧
      indexStep fs pm faults (r, st) path =
        ((if (getSessionMtime st ps.id).isSome then
            { r with updated := r.updated + 1 }
          else { r with added := r.added + 1 }),
         fullInsert
           (if (getSessionMtime st ps.id).isSome then deleteSession st ps.id
            else st)
           (mkStoredSession ps path mt) (buildChunks ps.id ps.turns))) := by
  constructor
  · intro line sid hline hlinene hheader hsidne hstored
    have hl : (line == "") = false := beq_eq_false_iff_ne.mpr hlinene
    have hs : (sid == "") = false := beq_eq_false_iff_ne.mpr hsidne
    have hskip : fastDecision fs st path mt = .skip := by
      simp only [fastDecision, hline, hl, Bool.false_eq_true, if_false,
        hheader, hs, hstored, beq_self_eq_true, if_true]
    have hpf : processFile fs pm faults st path = (.skipped, st) := by
      simp only [processFile, hmt, hskip]
    refine ⟨hpf, ?_⟩
    simp only [indexStep, hcan, if_true, hpf]
  · intro ps hfd hparse hfault
    have hchunks : ∀ c ∈ buildChunks ps.id ps.turns,
        c.session_id = (mkStoredSession ps path mt).id := by
      intro c hc
      exact buildChunks_session_id ps.id ps.turns c hc
    cases hsm : getSessionMtime st ps.id with
    | none =>
      have hnodup : st.sessions.any
          (fun t => t.id == (mkStoredSession ps path mt).id) = false :=
        getSessionMtime_none_any hsm
      have hins := insertSessionStore_ok hnodup hchunks
      have hpf : processFile fs pm faults st path =
          (Outcome.added, fullInsert st (mkStoredSession ps path mt)
            (buildChunks ps.id ps.turns)) := by
        simp only [processFile, hmt, hfd, processFull, hparse, hsm, hfault,
          Option.isSome_none, Bool.false_eq_true, if_false, hins]
      refine ⟨?_, ?_⟩
      · simp only [hsm, Option.isSome_none, Bool.false_eq_true, if_false]
        exact hpf
      · simp only [hsm, Option.isSome_none, Bool.false_eq_true, if_false,
          indexStep, hcan, if_true, hpf]
    | some m =>
      have hnodup : (deleteSession st ps.id).sessions.any
          (fun t => t.id == (mkStoredSession ps path mt).id) = false :=
        deleteSession_any_id st ps.id
      have hins := insertSessionStore_ok hnodup hchunks
      have hpf : processFile fs pm faults st path =
          (Outcome.updated, fullInsert (deleteSession st ps.id)
            (mkStoredSession ps path mt) (buildChunks ps.id ps.turns)) := by
        simp only [processFile, hmt, hfd, processFull, hparse, hsm, hfault,
          Option.isSome_some, if_true, hins]
      refine ⟨?_, ?_⟩
      · simp only [hsm, Option.isSome_some, if_true]
        exact hpf
      · simp only [hsm, Option.isSome_some, if_true,
          indexStep, hcan, hpf]

/-- C9.  A top-level scan failure aborts the run with the all-zero result
and an unchanged store, without raising; a per-file failure only increments
the error counter for that file, and the fold structure processes every
remaining file afterwards. -/
theorem C9_scan_failure_isolation (fs : FileSys) (pm : ParserModel)
    (faults : String → Option Nat) (dir : String) (st : Store) :
    (fs.rootEntries = none →
      indexSessions fs pm faults dir st = (zeroResult, st)) ∧
    (∀ (r : IndexResult) (st1 : Store) (p : String),
      pm.canParse p = true →
      (processFile fs pm faults st1 p).1 = .failed →
      indexStep fs pm faults (r, st1) p =
        ({ r with errors := r.errors + 1 }, (processFile fs pm faults st1 p).2)) ∧
    (∀ (init : IndexResult × Store) (pre : List String) (p : String)
        (post : List String),
      List.foldl (indexStep fs pm faults) init (pre ++ p :: post) =
        List.foldl (indexStep fs pm faults)
          (indexStep fs pm faults
            (List.foldl (indexStep fs pm faults) init pre) p) post) := by
  refine ⟨?_, ?_, ?_⟩
  · intro h
    simp [indexSessions, h]
  · intro r st1 p hcan hfail
    rcases hp : processFile fs pm faults st1 p with ⟨o, st2⟩
    rw [hp] at hfail
    simp only at hfail
    subst hfail
    simp only [indexStep, hcan, if_true, hp]
  · intro init pre p post
    rw [List.foldl_append]
    rfl

/-- A concrete file system for the incremental-decision witness. -/
def fsC2 : FileSys :=
  { rootEntries := some [{ name := "a.jsonl", isDir := false }]
    subEntries := fun _ => none
    mtimeMs := fun _ => some 5
    firstLine := fun _ => some "hdr"
    headerId := fun line => if line == "hdr" then .ok (some "sess1") else .error () }

/-- A concrete parsed session for the incremental-decision witness. -/
def psC2 : ParsedSession :=
  { id := "sess1", source := "pi", createdAt := "2026-01-01T00:00:00Z"
    modifiedAt := "2026-01-02T00:00:00Z"
    turns := [{ role := "user", textContent := "hello", toolCalls := [] }] }

/-- A parser returning the witness session. -/
def pmC2 : ParserModel :=
  { canParse := fun _ => true, parse := fun _ => .ok psC2 }

/-- A store already holding the witness session at the same mtime. -/
def stC2 : Store :=
  { sessions := [{ id := "sess1", source := "pi", path := "/dir/a.jsonl"
                   cwd := none, name := none, created_at := none
                   modified_at := none, message_count := 1, file_mtime := 5 }]
    chunks := [], ftsIndex := [], nextChunkId := 1 }

theorem C2_witness :
    processFile fsC2 pmC2 (fun _ => none) stC2 "/dir/a.jsonl" =
      (Outcome.skipped, stC2) ∧
    processFile fsC2 pmC2 (fun _ => none) emptyStore "/dir/a.jsonl" =
      (Outcome.added,
       fullInsert emptyStore (mkStoredSession psC2 "/dir/a.jsonl" 5)
         (buildChunks psC2.id psC2.turns)) := by
  constructor
  · exact ((C2_incremental_decision fsC2 pmC2 (fun _ => none) stC2 "/dir/a.jsonl"
      5 zeroResult rfl rfl).1 "hdr" "sess1" rfl (by decide) (by decide)
      (by decide) (by decide)).1
  · exact ((C2_incremental_decision fsC2 pmC2 (fun _ => none) emptyStore
      "/dir/a.jsonl" 5 zeroResult rfl rfl).2 psC2 (by decide) rfl rfl).1

/-- A file system whose top-level scan fails. -/
def fsC9 : FileSys :=
  { rootEntries := none
    subEntries := fun _ => none
    mtimeMs := fun _ => none
    firstLine := fun _ => none
    headerId := fun _ => .error () }

/-- A parser that accepts every file but fails to parse. -/
def pmC9 : ParserModel :=
  { canParse := fun _ => true
    parse := fun _ => .error () }

theorem C9_witness :
    indexSessions fsC9 pmC9 (fun _ => none) "/dir" emptyStore =
      (zeroResult, emptyStore) ∧
    indexStep fsC9 pmC9 (fun _ => none) (zeroResult, emptyStore) "/dir/a" =
      ({ zeroResult with errors := 1 }, emptyStore) ∧
    List.foldl (indexStep fsC9 pmC9 (fun _ => none)) (zeroResult, emptyStore)
        (["/dir/a"] ++ "/dir/b" :: ["/dir/c"]) =
      List.foldl (indexStep fsC9 pmC9 (fun _ => none))
        (indexStep fsC9 pmC9 (fun _ => none)
          (List.foldl (indexStep fsC9 pmC9 (fun _ => none))
            (zeroResult, emptyStore) ["/dir/a"]) "/dir/b") ["/dir/c"] := by
  obtain ⟨h1, h2, h3⟩ :=
    C9_scan_failure_isolation fsC9 pmC9 (fun _ => none) "/dir" emptyStore
  refine ⟨h1 rfl, ?_, h3 (zeroResult, emptyStore) ["/dir/a"] "/dir/b" ["/dir/c"]⟩
  have := h2 zeroResult emptyStore "/dir/a" rfl (by decide)
  rw [this]
  rfl

theorem search_star_ok {st : Store} {eng : String → List FtsRow}
    {o : SearchOptions} {results : List SearchResult}
    (h : search st eng "*" o = .ok results) :
    starHasFilters o = true ∧ results = listAllSessions st o := by
  have h1 : (jsTrim "*" == "") = false := by decide
  simp only [search, h1, Bool.false_eq_true, if_false, beq_self_eq_true,
    if_true] at h
  cases hf : starHasFilters o with
  | false => rw [hf] at h; simp at h
  | true =>
    rw [hf] at h
    simp only [Bool.not_true, Bool.false_eq_true, if_false] at h
    exact ⟨rfl, (Except.ok.inj h).symm⟩

theorem search_star_eval (st : Store) (eng : String → List FtsRow)
    {o : SearchOptions} (hf : starHasFilters o = true) :
    search st eng "*" o = .ok (listAllSessions st o) := by
  have h1 : (jsTrim "*" == "") = false := by decide
  simp only [search, h1, Bool.false_eq_true, if_false, beq_self_eq_true,
    if_true, hf, Bool.not_true]

theorem listAll_mem {st : Store} {o : SearchOptions} {r : SearchResult}
    (h : r ∈ listAllSessions st o) :
    ∃ s, s ∈ st.sessions ∧ listingPred st o s = true ∧ r = mkListingResult s := by
  unfold listAllSessions at h
  rcases List.mem_map.mp h with ⟨s, hs, hr⟩
  have hs2 : s ∈ (listingSurvivors st o).insertionSort sessModDesc :=
    List.take_subset _ _ hs
  have hs3 : s ∈ listingSurvivors st o :=
    (List.perm_insertionSort sessModDesc _).mem_iff.mp hs2
  rcases List.mem_filter.mp hs3 with ⟨hmem, hpred⟩
  exact ⟨s, hmem, hpred, hr.symm⟩

theorem listAll_complete {st : Store} {o : SearchOptions} {s : StoredSession}
    (hlen : (listingSurvivors st o).length ≤ effLimit o)
    (hs : s ∈ st.sessions) (hp : listingPred st o s = true) :
    mkListingResult s ∈ listAllSessions st o := by
  unfold listAllSessions
  apply List.mem_map_of_mem
  rw [List.take_of_length_le]
  · exact (List.perm_insertionSort sessModDesc _).mem_iff.mpr
      (List.mem_filter.mpr ⟨hs, hp⟩)
  · rw [List.length_insertionSort]
    exact hlen

theorem listAll_length (st : Store) (o : SearchOptions) :
    (listAllSessions st o).length =
      min (effLimit o) (listingSurvivors st o).length := by
  unfold listAllSessions
  rw [List.length_map, List.length_take, List.length_insertionSort]

theorem listAll_sorted (st : Store) (o : SearchOptions) :
    List.Pairwise (fun a b => modDescB a.modifiedAt b.modifiedAt = true)
      (listAllSessions st o) := by
  unfold listAllSessions
  rw [List.pairwise_map]
  apply List.Pairwise.sublist (List.take_sublist _ _)
  exact List.sorted_insertionSort sessModDesc (listingSurvivors st o)

theorem listAll_fields {st : Store} {o : SearchOptions} {r : SearchResult}
    (h : r ∈ listAllSessions st o) :
    r.score = 0 ∧
    r.matchedSnippet = (match r.name with
      | some n => if n == "" then recentPlaceholder else n
      | none => recentPlaceholder) := by
  rcases listAll_mem h with ⟨s, _, _, hr⟩
  subst hr
  exact ⟨rfl, rfl⟩

/-- A session whose name is present but empty. -/
def sC5 : StoredSession :=
  { id := "s5", source := "pi", path := "/p/s5", cwd := none, name := some ""
    created_at := none, modified_at := some "2026-01-01", message_count := 0
    file_mtime := 0 }

/-- A store holding only that session. -/
def stC5 : Store :=
  { sessions := [sC5], chunks := [], ftsIndex := [], nextChunkId := 1 }

/-- C5 counterexample: listing mode returns the fixed placeholder as the
snippet for a session whose name is present (the empty string is a present
name but falsy in the source), so the snippet is not the session's name
whenever the name is present. -/
theorem C5_counterexample :
    search stC5 (fun _ => []) "*" {} = .ok [mkListingResult sC5] ∧
    sC5.name = some "" ∧
    (mkListingResult sC5).matchedSnippet = "(recent session)" ∧
    ¬ (mkListingResult sC5).matchedSnippet = "" := by
  decide

/-- C5 (amended).  In listing mode the search bypasses the full-text engine
entirely, returns sessions ordered by modified_at descending (NULLs last)
truncated to the effective limit, and every result carries score zero and a
snippet equal to the session's name when the name is present and non-empty,
else the fixed placeholder. -/
theorem C5_listing_mode_amended (st : Store) (eng : String → List FtsRow)
    (o : SearchOptions) (results : List SearchResult)
    (h : search st eng "*" o = .ok results) :
    (∀ eng2, search st eng2 "*" o = .ok results) ∧
    List.Pairwise (fun a b => modDescB a.modifiedAt b.modifiedAt = true)
      results ∧
    results.length = min (effLimit o) (listingSurvivors st o).length ∧
    (∀ r ∈ results, r.score = 0 ∧
      r.matchedSnippet = (match r.name with
        | some n => if n == "" then recentPlaceholder else n
        | none => recentPlaceholder)) := by
  rcases search_star_ok h with ⟨hf, hres⟩
  subst hres
  refine ⟨?_, listAll_sorted st o, listAll_length st o,
    fun r hr => listAll_fields hr⟩
  intro eng2
  exact search_star_eval st eng2 hf

/-- Two sessions for the listing-mode witness, newest first by
modified_at. -/
def sNew : StoredSession :=
  { id := "new", source := "pi", path := "/p/new", cwd := none
    name := some "Newest", created_at := some "2026-02-01"
    modified_at := some "2026-02-02", message_count := 0, file_mtime := 1 }

/-- The older witness session. -/
def sOld : StoredSession :=
  { id := "old", source := "pi", path := "/p/old", cwd := none
    name := some "Oldest", created_at := some "2026-01-01"
    modified_at := some "2026-01-02", message_count := 0, file_mtime := 1 }

/-- A store with the two witness sessions. -/
def stTwo : Store :=
  { sessions := [sOld, sNew], chunks := [], ftsIndex := [], nextChunkId := 1 }

theorem C5_witness :
    search stTwo (fun _ => []) "*" {} =
      .ok [mkListingResult sNew, mkListingResult sOld] ∧
    (∀ eng2, search stTwo eng2 "*" {} =
      .ok [mkListingResult sNew, mkListingResult sOld]) ∧
    [mkListingResult sNew, mkListingResult sOld].length =
      min (effLimit {}) (listingSurvivors stTwo {}).length ∧
    (∀ r ∈ [mkListingResult sNew, mkListingResult sOld], r.score = 0) := by
  have h0 : search stTwo (fun _ => []) "*" {} =
      .ok [mkListingResult sNew, mkListingResult sOld] := by decide
  have h := C5_listing_mode_amended stTwo (fun _ => [])
    {} [mkListingResult sNew, mkListingResult sOld] h0
  exact ⟨h0, h.1, h.2.2.1, fun r hr => (h.2.2.2 r hr).1⟩

/-- A result is the best entry for its session among a set of join rows: it
is built from one matched row of that session, and its score is less than or
equal to the score of every matched row of that session. -/
def isBestFor (lk : Nat → Option FtsRow) (rows : List JoinRow)
    (res : SearchResult) : Prop :=
  (∃ row, row ∈ rows ∧ ∃ f, lk row.chunkId = some f ∧
    rowSid row = res.sessionId ∧ res = mkFtsResult row f) ∧
  (∀ row ∈ rows, rowSid row = res.sessionId →
    ∀ f, lk row.chunkId = some f → res.score ≤ f.score)

instance (lk : Nat → Option FtsRow) (rows : List JoinRow)
    (res : SearchResult) : Decidable (isBestFor lk rows res) := by
  unfold isBestFor
  infer_instance

/-- The session ids of the join rows whose chunk has score data. -/
def scoredKeys (lk : Nat → Option FtsRow) (rows : List JoinRow) : List String :=
  (rows.filter (fun row => (lk row.chunkId).isSome)).map rowSid

/-- The invariant of the grouping loop: the accumulated per-session map has
distinct keys, its key set is exactly the set of scored session ids of the
rows processed so far, and every entry is the best entry for its session. -/
def groupInv (lk : Nat → Option FtsRow) (seen : List JoinRow)
    (acc : List SearchResult) : Prop :=
  (acc.map resKey).Nodup ∧
  (∀ sid, sid ∈ acc.map resKey ↔ sid ∈ scoredKeys lk seen) ∧
  (∀ res ∈ acc, isBestFor lk seen res)

theorem mem_scoredKeys {lk : Nat → Option FtsRow} {rows : List JoinRow}
    {sid : String} :
    sid ∈ scoredKeys lk rows ↔
      ∃ row, row ∈ rows ∧ (lk row.chunkId).isSome = true ∧ rowSid row = sid := by
  unfold scoredKeys
  constructor
  · intro h
    rcases List.mem_map.mp h with ⟨row, hrow, hsid⟩
    rcases List.mem_filter.mp hrow with ⟨hmem, hsome⟩
    exact ⟨row, hmem, hsome, hsid⟩
  · intro ⟨row, hmem, hsome, hsid⟩
    exact List.mem_map.mpr ⟨row, List.mem_filter.mpr ⟨hmem, hsome⟩, hsid⟩

theorem scoredKeys_append {lk : Nat → Option FtsRow} {seen : List JoinRow}
    {row : JoinRow} :
    scoredKeys lk (seen ++ [row]) =
      scoredKeys lk seen ++
        (if (lk row.chunkId).isSome then [rowSid row] else []) := by
  unfold scoredKeys
  rw [List.filter_append, List.map_append]
  congr 1
  cases h : (lk row.chunkId).isSome with
  | true => simp [List.filter_cons, h]
  | false => simp [List.filter_cons, h]

theorem groupInv_step (lk : Nat → Option FtsRow) (seen : List JoinRow)
    (acc : List SearchResult) (row : JoinRow)
    (h : groupInv lk seen acc) :
    groupInv lk (seen ++ [row]) (groupStep lk acc row) := by
  obtain ⟨hnd, hiff, hbest⟩ := h
  cases hlk : lk row.chunkId with
  | none =>
    have hg : groupStep lk acc row = acc := by
      simp only [groupStep, hlk]
    rw [hg]
    refine ⟨hnd, ?_, ?_⟩
    · intro sid
      rw [hiff sid, scoredKeys_append, hlk]
      simp
    · intro res hres
      obtain ⟨⟨row0, hrow0, f0, hf0, hsid0, hres0⟩, hmin⟩ := hbest res hres
      refine ⟨⟨row0, List.mem_append_left _ hrow0, f0, hf0, hsid0, hres0⟩, ?_⟩
      intro row1 hrow1 hsid1 f1 hf1
      rcases List.mem_append.mp hrow1 with h1 | h1
      · exact hmin row1 h1 hsid1 f1 hf1
      · rw [List.mem_singleton.mp h1] at hf1
        rw [hlk] at hf1
        exact Option.noConfusion hf1
  | some f =>
    cases hfind : acc.find? (fun x => x.sessionId == rowSid row) with
    | none =>
      have hg : groupStep lk acc row = acc ++ [mkFtsResult row f] := by
        simp only [groupStep, hlk, hfind]
      rw [hg]
      have hnotmem : rowSid row ∉ acc.map resKey := by
        intro hmem
        rcases List.mem_map.mp hmem with ⟨x, hx, hkey⟩
        have hne := List.find?_eq_none.mp hfind x hx
        apply hne
        simp only [resKey] at hkey
        simp [hkey]
      refine ⟨?_, ?_, ?_⟩
      · rw [List.map_append]
        rw [List.nodup_append]
        refine ⟨hnd, List.nodup_singleton _, ?_⟩
        intro a ha hb
        have hab : a = rowSid row := List.mem_singleton.mp hb
        exact hnotmem (hab ▸ ha)
      · intro sid
        rw [List.map_append, List.mem_append, hiff sid, scoredKeys_append, hlk,
          List.mem_append]
        simp only [Option.isSome_some, if_true]
        exact Iff.rfl
      · intro res hres
        rcases List.mem_append.mp hres with h1 | h1
        · obtain ⟨⟨row0, hrow0, f0, hf0, hsid0, hres0⟩, hmin⟩ := hbest res h1
          refine ⟨⟨row0, List.mem_append_left _ hrow0, f0, hf0, hsid0, hres0⟩, ?_⟩
          intro row1 hrow1 hsid1 f1 hf1
          rcases List.mem_append.mp hrow1 with h2 | h2
          · exact hmin row1 h2 hsid1 f1 hf1
          · exfalso
            apply hnotmem
            rw [List.mem_singleton.mp h2] at hsid1
            rw [hsid1]
            exact List.mem_map_of_mem resKey h1
        · rw [List.mem_singleton.mp h1]
          refine ⟨⟨row, List.mem_append_right _ (List.mem_singleton_self row),
            f, hlk, rfl, rfl⟩, ?_⟩
          intro row1 hrow1 hsid1 f1 hf1
          rcases List.mem_append.mp hrow1 with h2 | h2
          · exfalso
            apply hnotmem
            rw [hiff]
            have hsid1' : rowSid row1 = rowSid row := hsid1
            exact mem_scoredKeys.mpr ⟨row1, h2, by rw [hf1]; rfl, hsid1'⟩
          · rw [List.mem_singleton.mp h2] at hf1
            rw [hlk] at hf1
            rw [Option.some.inj hf1]
            exact le_refl _
    | some existing =>
      have hex_mem : existing ∈ acc := List.mem_of_find?_eq_some hfind
      have hex_key : existing.sessionId = rowSid row := by
        have := List.find?_some hfind
        simpa using this
      have huniq : ∀ x ∈ acc, x.sessionId = rowSid row → x = existing := by
        intro x hx hxs
        exact List.inj_on_of_nodup_map hnd hx hex_mem
          (by simp only [resKey]; rw [hxs, hex_key])
      have hrid_mem : rowSid row ∈ acc.map resKey := by
        rw [← hex_key]
        exact List.mem_map_of_mem resKey hex_mem
      by_cases hlt : f.score < existing.score
      · have hg : groupStep lk acc row =
            acc.map (fun x => if x.sessionId == rowSid row then mkFtsResult row f
                     else x) := by
          simp only [groupStep, hlk, hfind]
          rw [if_pos hlt]
        rw [hg]
        have hkeys : (acc.map
            (fun x => if x.sessionId == rowSid row then mkFtsResult row f
                      else x)).map resKey = acc.map resKey := by
          rw [List.map_map]
          apply List.map_congr_left
          intro x hx
          by_cases hxk : (x.sessionId == rowSid row) = true
          · simp only [Function.comp, hxk, if_true, resKey, mkFtsResult]
            exact (eq_of_beq hxk).symm
          · simp only [Function.comp, hxk, Bool.false_eq_true, if_false]
        refine ⟨by rw [hkeys]; exact hnd, ?_, ?_⟩
        · intro sid
          rw [hkeys, hiff sid, scoredKeys_append, hlk, List.mem_append]
          simp only [Option.isSome_some, if_true]
          constructor
          · exact Or.inl
          · intro hc
            rcases hc with hc | hc
            · exact hc
            · rw [List.mem_singleton.mp hc]
              exact (hiff _).mp hrid_mem
        · intro res hres
          rcases List.mem_map.mp hres with ⟨x, hx, hgx⟩
          by_cases hxk : (x.sessionId == rowSid row) = true
          · rw [if_pos hxk] at hgx
            rw [← hgx]
            have hxex : x = existing := huniq x hx (eq_of_beq hxk)
            refine ⟨⟨row, List.mem_append_right _ (List.mem_singleton_self row),
              f, hlk, rfl, rfl⟩, ?_⟩
            intro row1 hrow1 hsid1 f1 hf1
            rcases List.mem_append.mp hrow1 with h2 | h2
            · obtain ⟨_, hminex⟩ := hbest existing hex_mem
              have hsid1' : rowSid row1 = existing.sessionId := by
                rw [hex_key]
                exact hsid1
              have hle := hminex row1 h2 hsid1' f1 hf1
              exact le_trans (le_of_lt hlt) hle
            · rw [List.mem_singleton.mp h2] at hf1
              rw [hlk] at hf1
              rw [Option.some.inj hf1]
              exact le_refl _
          · rw [if_neg hxk] at hgx
            rw [← hgx]
            obtain ⟨⟨row0, hrow0, f0, hf0, hsid0, hres0⟩, hmin⟩ := hbest x hx
            refine ⟨⟨row0, List.mem_append_left _ hrow0, f0, hf0, hsid0, hres0⟩,
              ?_⟩
            intro row1 hrow1 hsid1 f1 hf1
            rcases List.mem_append.mp hrow1 with h2 | h2
            · exact hmin row1 h2 hsid1 f1 hf1
            · exfalso
              apply hxk
              rw [List.mem_singleton.mp h2] at hsid1
              rw [← hsid1]
              exact beq_self_eq_true _
      · have hg : groupStep lk acc row = acc := by
          simp only [groupStep, hlk, hfind]
          rw [if_neg hlt]
        rw [hg]
        refine ⟨hnd, ?_, ?_⟩
        · intro sid
          rw [hiff sid, scoredKeys_append, hlk, List.mem_append]
          simp only [Option.isSome_some, if_true]
          constructor
          · exact Or.inl
          · intro hc
            rcases hc with hc | hc
            · exact hc
            · rw [List.mem_singleton.mp hc]
              exact (hiff _).mp hrid_mem
        · intro res hres
          obtain ⟨⟨row0, hrow0, f0, hf0, hsid0, hres0⟩, hmin⟩ := hbest res hres
          refine ⟨⟨row0, List.mem_append_left _ hrow0, f0, hf0, hsid0, hres0⟩, ?_⟩
          intro row1 hrow1 hsid1 f1 hf1
          rcases List.mem_append.mp hrow1 with h2 | h2
          · exact hmin row1 h2 hsid1 f1 hf1
          · have hrow1row : row1 = row := List.mem_singleton.mp h2
            rw [hrow1row] at hsid1 hf1
            have hresex : res = existing := huniq res hres hsid1.symm
            rw [hlk] at hf1
            rw [hresex, ← Option.some.inj hf1]
            exact not_lt.mp hlt

theorem groupInv_foldl (lk : Nat → Option FtsRow) :
    ∀ (rows : List JoinRow) (seen : List JoinRow) (acc : List SearchResult),
      groupInv lk seen acc →
      groupInv lk (seen ++ rows) (rows.foldl (groupStep lk) acc) := by
  intro rows
  induction rows with
  | nil => intro seen acc h; simpa using h
  | cons row rest ih =>
    intro seen acc h
    have hstep := groupInv_step lk seen acc row h
    have := ih (seen ++ [row]) (groupStep lk acc row) hstep
    simpa [List.append_assoc] using this

theorem groupRows_inv (lk : Nat → Option FtsRow) (rows : List JoinRow) :
    groupInv lk rows (groupRows lk rows) := by
  have hbase : groupInv lk [] [] := by
    refine ⟨List.nodup_nil, ?_, ?_⟩
    · intro sid
      simp [scoredKeys]
    · intro res hres
      simp at hres
  have := groupInv_foldl lk rows [] [] hbase
  simpa [groupRows] using this

theorem list_toFinset_eq_of_mem_iff {l1 l2 : List String}
    (h : ∀ a, a ∈ l1 ↔ a ∈ l2) : l1.toFinset = l2.toFinset := by
  ext a
  simp only [List.mem_toFinset]
  exact h a

theorem groupRows_length (lk : Nat → Option FtsRow) (rows : List JoinRow) :
    (groupRows lk rows).length = (scoredKeys lk rows).toFinset.card := by
  obtain ⟨hnd, hiff, _⟩ := groupRows_inv lk rows
  have h1 : (groupRows lk rows).length =
      ((groupRows lk rows).map resKey).length := (List.length_map _ _).symm
  rw [h1, ← List.toFinset_card_of_nodup hnd, list_toFinset_eq_of_mem_iff hiff]

theorem ftsPipeline_props (st : Store) (fts : List FtsRow) (o : SearchOptions)
    (lim : Nat) :
    ((ftsPipeline st fts o lim).map resKey).Nodup ∧
    (∀ r ∈ ftsPipeline st fts o lim,
      isBestFor (lookupFts fts) (joinRows st (fts.map FtsRow.rowid) o) r) ∧
    List.Pairwise (fun a b => a.score ≤ b.score) (ftsPipeline st fts o lim) ∧
    (ftsPipeline st fts o lim).length =
      min lim ((scoredKeys (lookupFts fts)
        (joinRows st (fts.map FtsRow.rowid) o)).toFinset.card) := by
  obtain ⟨hnd, hiff, hbest⟩ :=
    groupRows_inv (lookupFts fts) (joinRows st (fts.map FtsRow.rowid) o)
  have hperm : (groupRows (lookupFts fts)
        (joinRows st (fts.map FtsRow.rowid) o)).insertionSort scoreAsc |>.Perm
      (groupRows (lookupFts fts) (joinRows st (fts.map FtsRow.rowid) o)) :=
    List.perm_insertionSort _ _
  have hpipe : ftsPipeline st fts o lim =
      ((groupRows (lookupFts fts)
        (joinRows st (fts.map FtsRow.rowid) o)).insertionSort scoreAsc).take
        lim := rfl
  refine ⟨?_, ?_, ?_, ?_⟩
  · have hnd2 : (((groupRows (lookupFts fts)
        (joinRows st (fts.map FtsRow.rowid) o)).insertionSort
          scoreAsc).map resKey).Nodup :=
      (hperm.map resKey).nodup_iff.mpr hnd
    rw [hpipe]
    exact List.Nodup.sublist
      (List.Sublist.map resKey (List.take_sublist _ _)) hnd2
  · intro r hr
    rw [hpipe] at hr
    have hr2 := hperm.mem_iff.mp (List.take_subset _ _ hr)
    exact hbest r hr2
  · rw [hpipe]
    exact List.Pairwise.sublist (List.take_sublist _ _)
      (List.sorted_insertionSort scoreAsc _)
  · rw [hpipe, List.length_take, List.length_insertionSort, groupRows_length]

theorem search_fts_ok {st : Store} {eng : String → List FtsRow}
    {o : SearchOptions} {q : String} {results : List SearchResult}
    (hq1 : jsTrim q ≠ "") (hq2 : q ≠ "*")
    (h : search st eng q o = .ok results) :
    results = if (eng (escapeFtsQuery q)).isEmpty then []
              else ftsPipeline st (eng (escapeFtsQuery q)) o (effLimit o) := by
  have h1 : (jsTrim q == "") = false := beq_eq_false_iff_ne.mpr hq1
  have h2 : (q == "*") = false := beq_eq_false_iff_ne.mpr hq2
  simp only [search, h1, h2, Bool.false_eq_true, if_false] at h
  split at h
  · rename_i hE
    rw [if_pos hE]
    exact (Except.ok.inj h).symm
  · rename_i hE
    rw [if_neg hE]
    exact (Except.ok.inj h).symm

/-- C4.  In full-text mode the search returns at most one result per
session; every result is built from one of that session's filter-surviving
matched chunks and carries the best (least, i.e. most negative) score among
them together with that chunk's snippet; the list is sorted by score
ascending; and it is truncated to the limit option, which defaults to 10. -/
theorem C4_fulltext_grouping (st : Store) (eng : String → List FtsRow)
    (o : SearchOptions) (q : String) (results : List SearchResult)
    (hq1 : jsTrim q ≠ "") (hq2 : q ≠ "*")
    (h : search st eng q o = .ok results) :
    ((results.map resKey).Nodup) ∧
    (∀ r ∈ results, isBestFor (lookupFts (eng (escapeFtsQuery q)))
      (joinRows st ((eng (escapeFtsQuery q)).map FtsRow.rowid) o) r) ∧
    List.Pairwise (fun a b => a.score ≤ b.score) results ∧
    results.length ≤ o.limit.getD 10 := by
  have hres := search_fts_ok hq1 hq2 h
  by_cases hE : (eng (escapeFtsQuery q)).isEmpty
  · rw [if_pos hE] at hres
    subst hres
    refine ⟨by simp, by simp, by simp, by simp⟩
  · rw [if_neg hE] at hres
    subst hres
    obtain ⟨h1, h2, h3, h4⟩ :=
      ftsPipeline_props st (eng (escapeFtsQuery q)) o (effLimit o)
    exact ⟨h1, h2, h3, by rw [h4]; exact min_le_left _ _⟩

/-- A first witness session with a matched chunk. -/
def sA4 : StoredSession :=
  { id := "a4", source := "pi", path := "/p/a4", cwd := some "/proj-a/x"
    name := some "A4", created_at := some "2026-01-01"
    modified_at := some "2026-01-02", message_count := 1, file_mtime := 1 }

/-- A second witness session with a matched chunk. -/
def sB4 : StoredSession :=
  { id := "b4", source := "pi", path := "/p/b4", cwd := some "/proj-b/y"
    name := some "B4", created_at := some "2026-02-01"
    modified_at := some "2026-02-02", message_count := 1, file_mtime := 1 }

/-- A store with the two witness sessions and one chunk each. -/
def stC4 : Store :=
  { sessions := [sA4, sB4]
    chunks :=
      [{ id := 1, session_id := "a4", kind := "message", role := some "user"
         tool_name := none, seq := 0, content := "hello world", is_error := none },
       { id := 2, session_id := "b4", kind := "message", role := some "user"
         tool_name := none, seq := 0, content := "hello there", is_error := none }]
    ftsIndex := [(1, "hello world"), (2, "hello there")]
    nextChunkId := 3 }

/-- An FTS oracle matching both chunks, the first scoring better. -/
def engC4 : String → List FtsRow :=
  fun _ => [{ rowid := 1, score := -5, snippet := "snipA" },
            { rowid := 2, score := -3, snippet := "snipB" }]

/-- The expected full-text results for the witness. -/
def resC4 : List SearchResult :=
  [mkFtsResult { session := sA4, chunkId := 1 }
     { rowid := 1, score := -5, snippet := "snipA" },
   mkFtsResult { session := sB4, chunkId := 2 }
     { rowid := 2, score := -3, snippet := "snipB" }]

theorem C4_witness :
    search stC4 engC4 "hello" {} = .ok resC4 ∧
    ((resC4.map resKey).Nodup ∧
     (∀ r ∈ resC4, isBestFor (lookupFts (engC4 (escapeFtsQuery "hello")))
        (joinRows stC4 ((engC4 (escapeFtsQuery "hello")).map FtsRow.rowid)
          {}) r) ∧
     List.Pairwise (fun a b => a.score ≤ b.score) resC4 ∧
     resC4.length ≤ (({} : SearchOptions)).limit.getD 10) := by
  have h0 : search stC4 engC4 "hello" {} = .ok resC4 := by decide
  exact ⟨h0, C4_fulltext_grouping stC4 engC4 {} "hello" resC4 (by decide)
    (by decide) h0⟩

theorem sessionFilterOk_exclude {o : SearchOptions} {s : StoredSession}
    (h : sessionFilterOk o s = true) {x : String} (hx : x ∈ o.exclude) :
    s.id ≠ x := by
  intro heq
  have hne : o.exclude.isEmpty = false := by
    cases hE : o.exclude with
    | nil => rw [hE] at hx; simp at hx
    | cons a l => rfl
  unfold sessionFilterOk at h
  simp only [Bool.and_eq_true] at h
  obtain ⟨⟨⟨_, _⟩, _⟩, h4⟩ := h
  rw [hne] at h4
  simp only [Bool.false_eq_true, if_false, Bool.not_eq_true'] at h4
  have hnot : s.id ∉ o.exclude := by simpa using h4
  exact hnot (by rw [heq]; exact hx)

theorem sessionFilterOk_cwd {o : SearchOptions} {s : StoredSession} {P : String}
    (hc : o.cwd = some P) (hP : P ≠ "")
    (h : sessionFilterOk o s = true) : cwdLikeOk P s.cwd = true := by
  have ht : strTruthy o.cwd = true := by
    rw [hc]
    simp [strTruthy, hP]
  unfold sessionFilterOk at h
  simp only [Bool.and_eq_true] at h
  obtain ⟨⟨⟨h1, _⟩, _⟩, _⟩ := h
  rw [ht] at h1
  simp only [if_true] at h1
  rw [hc] at h1
  simpa using h1

theorem listingPred_sessionFilterOk {st : Store} {o : SearchOptions}
    {s : StoredSession} (h : listingPred st o s = true) :
    sessionFilterOk o s = true := by
  unfold listingPred at h
  simp only [Bool.and_eq_true] at h
  exact h.1

theorem joinRows_session {st : Store} {rowids : List Nat} {o : SearchOptions}
    {row : JoinRow} (h : row ∈ joinRows st rowids o) :
    row.session ∈ st.sessions ∧ sessionFilterOk o row.session = true := by
  unfold joinRows at h
  rcases List.mem_filterMap.mp h with ⟨c, _, heq⟩
  split at heq
  · split at heq
    · rename_i s hfind
      split at heq
      · split at heq
        · rename_i hcond
          have hrow : row = { session := s, chunkId := c.id } :=
            (Option.some.inj heq).symm
          have hmem : s ∈ st.sessions := List.mem_of_find?_eq_some hfind
          subst hrow
          simp only [Bool.and_eq_true] at hcond
          exact ⟨hmem, hcond.1.1⟩
        · simp at heq
      · split at heq
        · rename_i hcond
          have hrow : row = { session := s, chunkId := c.id } :=
            (Option.some.inj heq).symm
          have hmem : s ∈ st.sessions := List.mem_of_find?_eq_some hfind
          subst hrow
          simp only [Bool.and_eq_true] at hcond
          exact ⟨hmem, hcond.1.1⟩
        · simp at heq
    · simp at heq
  · simp at heq

theorem joinRows_nil (st : Store) (o : SearchOptions) :
    joinRows st [] o = [] := by
  unfold joinRows
  apply List.filterMap_eq_nil_iff.mpr
  intro c _
  simp

/-- C6.  In both query modes, the exclusion set is applied inside the query
before the limit truncation: no excluded session id appears in any result,
and the result-list length is the minimum of the effective limit and the
number of filter-surviving (respectively, matched-and-surviving) sessions,
so exclusion never shortens the returned page below the limit while
non-excluded candidates remain. -/
theorem C6_exclude_before_limit (st : Store) (eng : String → List FtsRow)
    (o : SearchOptions) (q : String) :
    (∀ results, search st eng "*" o = .ok results →
      (∀ x ∈ o.exclude, ∀ r ∈ results, r.sessionId ≠ x) ∧
      results.length = min (effLimit o) (listingSurvivors st o).length) ∧
    (∀ results, jsTrim q ≠ "" → q ≠ "*" → search st eng q o = .ok results →
      (∀ x ∈ o.exclude, ∀ r ∈ results, r.sessionId ≠ x) ∧
      results.length = min (effLimit o)
        ((scoredKeys (lookupFts (eng (escapeFtsQuery q)))
          (joinRows st ((eng (escapeFtsQuery q)).map FtsRow.rowid)
            o)).toFinset.card)) := by
  constructor
  · intro results h
    rcases search_star_ok h with ⟨_, hres⟩
    subst hres
    refine ⟨?_, listAll_length st o⟩
    intro x hx r hr
    rcases listAll_mem hr with ⟨s, _, hpred, hrs⟩
    rw [hrs]
    exact sessionFilterOk_exclude (listingPred_sessionFilterOk hpred) hx
  · intro results hq1 hq2 h
    have hres := search_fts_ok hq1 hq2 h
    by_cases hE : (eng (escapeFtsQuery q)).isEmpty
    · rw [if_pos hE] at hres
      subst hres
      have hfts : eng (escapeFtsQuery q) = [] := List.isEmpty_iff.mp hE
      rw [hfts]
      simp only [List.map_nil, joinRows_nil]
      constructor
      · intro x _ r hr
        simp at hr
      · simp [scoredKeys]
    · rw [if_neg hE] at hres
      subst hres
      obtain ⟨_, hbestAll, _, hlen⟩ :=
        ftsPipeline_props st (eng (escapeFtsQuery q)) o (effLimit o)
      refine ⟨?_, hlen⟩
      intro x hx r hr
      obtain ⟨⟨row, hrow, f, _, hsid, hmk⟩, _⟩ := hbestAll r hr
      have hsess := joinRows_session hrow
      rw [← hsid]
      exact sessionFilterOk_exclude hsess.2 hx

theorem C6_witness :
    search stTwo (fun _ => []) "*" { limit := some 1, exclude := ["new"] } =
      .ok [mkListingResult sOld] ∧
    (∀ x ∈ ["new"], ∀ r ∈ [mkListingResult sOld], r.sessionId ≠ x) ∧
    [mkListingResult sOld].length =
      min (effLimit { limit := some 1, exclude := ["new"] })
        (listingSurvivors stTwo { limit := some 1, exclude := ["new"] }).length := by
  have h0 : search stTwo (fun _ => []) "*"
      { limit := some 1, exclude := ["new"] } = .ok [mkListingResult sOld] := by
    decide
  have h := (C6_exclude_before_limit stTwo (fun _ => [])
    { limit := some 1, exclude := ["new"] } "q").1 [mkListingResult sOld] h0
  exact ⟨h0, h.1, h.2⟩

/-- Modelled from the spec: the claim reads the cwd option as a literal
string prefix test, here written out character by character, case
sensitively and with no wildcards. -/
def specStartsWithCh : List Char → List Char → Bool
  | [], _ => true
  | _ :: _, [] => false
  | a :: as, b :: bs => a == b && specStartsWithCh as bs

/-- The literal-prefix reading of the claim on strings. -/
def specStartsWith (p s : String) : Bool :=
  specStartsWithCh p.toList s.toList

/-- A session whose stored cwd differs from the filter value only by ASCII
case. -/
def sC10 : StoredSession :=
  { id := "s10", source := "pi", path := "/p/s10", cwd := some "/PROJ-A/app"
    name := some "S10", created_at := some "2026-01-01"
    modified_at := some "2026-01-02", message_count := 0, file_mtime := 0 }

/-- A store holding only that session. -/
def stC10 : Store :=
  { sessions := [sC10], chunks := [], ftsIndex := [], nextChunkId := 1 }

/-- C10 counterexample: with the cwd option set to a lower-case path, the
session whose stored cwd is the same path in upper case appears in the
results (SQLite LIKE is ASCII-case-insensitive), although its stored cwd
does not start with the option value as a literal string prefix. -/
theorem C10_counterexample :
    search stC10 (fun _ => []) "*" { cwd := some "/proj-a" } =
      .ok [mkListingResult sC10] ∧
    sC10.cwd = some "/PROJ-A/app" ∧
    specStartsWith "/proj-a" "/PROJ-A/app" = false := by
  decide

/-- C10 (amended).  The cwd option is an SQLite LIKE prefix filter, not a
literal one: the option value with a percent wildcard appended is matched
ASCII-case-insensitively, with percent and underscore characters inside the
value acting as wildcards.  In both modes every returned session's stored
cwd satisfies that LIKE test, and — whenever the candidate set is not
truncated by the limit — every session satisfying the mode's filters
appears. -/
theorem C10_cwd_like_amended (st : Store) (eng : String → List FtsRow)
    (o : SearchOptions) (P : String) (q : String)
    (hc : o.cwd = some P) (hP : P ≠ "") :
    (∀ results, search st eng "*" o = .ok results →
      (∀ r ∈ results, ∃ s, s ∈ st.sessions ∧ r.sessionId = s.id ∧
        cwdLikeOk P s.cwd = true) ∧
      ((listingSurvivors st o).length ≤ effLimit o →
        ∀ s, s ∈ st.sessions → listingPred st o s = true →
          s.id ∈ results.map resKey)) ∧
    (∀ results, jsTrim q ≠ "" → q ≠ "*" → search st eng q o = .ok results →
      (∀ r ∈ results, ∃ s, s ∈ st.sessions ∧ r.sessionId = s.id ∧
        cwdLikeOk P s.cwd = true) ∧
      (((scoredKeys (lookupFts (eng (escapeFtsQuery q)))
          (joinRows st ((eng (escapeFtsQuery q)).map FtsRow.rowid)
            o)).toFinset.card ≤ effLimit o) →
        ∀ row ∈ joinRows st ((eng (escapeFtsQuery q)).map FtsRow.rowid) o,
          (lookupFts (eng (escapeFtsQuery q)) row.chunkId).isSome = true →
          rowSid row ∈ results.map resKey)) := by
  constructor
  · intro results h
    rcases search_star_ok h with ⟨_, hres⟩
    subst hres
    constructor
    · intro r hr
      rcases listAll_mem hr with ⟨s, hmem, hpred, hrs⟩
      refine ⟨s, hmem, ?_, ?_⟩
      · rw [hrs]; rfl
      · exact sessionFilterOk_cwd hc hP (listingPred_sessionFilterOk hpred)
    · intro hlen s hmem hpred
      have := listAll_complete hlen hmem hpred
      exact List.mem_map_of_mem resKey this
  · intro results hq1 hq2 h
    have hres := search_fts_ok hq1 hq2 h
    by_cases hE : (eng (escapeFtsQuery q)).isEmpty
    · rw [if_pos hE] at hres
      subst hres
      have hfts : eng (escapeFtsQuery q) = [] := List.isEmpty_iff.mp hE
      constructor
      · intro r hr
        simp at hr
      · intro _ row hrow _
        rw [hfts] at hrow
        simp only [List.map_nil, joinRows_nil] at hrow
        simp at hrow
    · rw [if_neg hE] at hres
      subst hres
      obtain ⟨_, hbestAll, _, _⟩ :=
        ftsPipeline_props st (eng (escapeFtsQuery q)) o (effLimit o)
      constructor
      · intro r hr
        obtain ⟨⟨row, hrow, f, _, hsid, _⟩, _⟩ := hbestAll r hr
        have hsess := joinRows_session hrow
        exact ⟨row.session, hsess.1, hsid.symm,
          sessionFilterOk_cwd hc hP hsess.2⟩
      · intro hcard row hrow hsome
        obtain ⟨hnd, hiff, _⟩ := groupRows_inv
          (lookupFts (eng (escapeFtsQuery q)))
          (joinRows st ((eng (escapeFtsQuery q)).map FtsRow.rowid) o)
        have hkeys : rowSid row ∈ (groupRows
            (lookupFts (eng (escapeFtsQuery q)))
            (joinRows st ((eng (escapeFtsQuery q)).map FtsRow.rowid)
              o)).map resKey := by
          rw [hiff]
          exact mem_scoredKeys.mpr ⟨row, hrow, hsome, rfl⟩
        have hlen2 : ((groupRows (lookupFts (eng (escapeFtsQuery q)))
            (joinRows st ((eng (escapeFtsQuery q)).map FtsRow.rowid)
              o)).insertionSort scoreAsc).length ≤ effLimit o := by
          rw [List.length_insertionSort, groupRows_length]
          exact hcard
        have htake : ftsPipeline st (eng (escapeFtsQuery q)) o (effLimit o) =
            (groupRows (lookupFts (eng (escapeFtsQuery q)))
              (joinRows st ((eng (escapeFtsQuery q)).map FtsRow.rowid)
                o)).insertionSort scoreAsc := by
          show ((groupRows _ _).insertionSort scoreAsc).take (effLimit o) = _
          exact List.take_of_length_le hlen2
        rw [htake]
        have hperm := List.perm_insertionSort scoreAsc
          (groupRows (lookupFts (eng (escapeFtsQuery q)))
            (joinRows st ((eng (escapeFtsQuery q)).map FtsRow.rowid) o))
        exact (hperm.map resKey).mem_iff.mpr hkeys

theorem C10_witness :
    search stC4 (fun _ => []) "*" { cwd := some "/proj-a" } =
      .ok [mkListingResult sA4] ∧
    (∀ r ∈ [mkListingResult sA4], ∃ s, s ∈ stC4.sessions ∧
      r.sessionId = s.id ∧ cwdLikeOk "/proj-a" s.cwd = true) ∧
    sA4.id ∈ ([mkListingResult sA4].map resKey) := by
  have h0 : search stC4 (fun _ => []) "*" { cwd := some "/proj-a" } =
      .ok [mkListingResult sA4] := by decide
  have h := (C10_cwd_like_amended stC4 (fun _ => []) { cwd := some "/proj-a" }
    "/proj-a" "q" rfl (by decide)).1 [mkListingResult sA4] h0
  exact ⟨h0, h.1, h.2 (by decide) sA4 (by decide) (by decide)⟩

end Sesame
